import Mathlib

/-!
Verification of the design-system analyzer modules of this repository
(`src/utils/colorAnalyzer.js`, the typography module and the image module in
`src/unnamed/`).  JavaScript numbers are modelled as exact rationals, strings
as `String`/`List Char`, `null`-able values as `Option`.  DOM access is
modelled by passing the sampled data (computed styles, query results,
bounding boxes) explicitly, mirroring the shape of the source functions.
-/

/-- Model of JavaScript `Math.round`: round half toward positive infinity. -/
def jsRound (q : ℚ) : ℤ := ⌊q + 1/2⌋

/-- Digit characters to a natural number, as `parseInt` does on an
all-digit capture. -/
def digitsToNat (cs : List Char) : ℕ :=
  cs.foldl (fun n c => n * 10 + (c.toNat - 48)) 0

/-- Uppercase ASCII mapping of `String.prototype.toUpperCase` (all inputs in
this development are ASCII). -/
def jsToUpper (c : Char) : Char :=
  if 97 ≤ c.toNat ∧ c.toNat ≤ 122 then Char.ofNat (c.toNat - 32) else c

/-- Lowercase ASCII mapping of `String.prototype.toLowerCase`. -/
def jsToLower (c : Char) : Char :=
  if 65 ≤ c.toNat ∧ c.toNat ≤ 90 then Char.ofNat (c.toNat + 32) else c

/-- Model of JavaScript `String.prototype.includes`: substring test. -/
def jsIncludes : List Char → List Char → Bool
  | [], sub => sub.isEmpty
  | c :: t, sub => sub.isPrefixOf (c :: t) || jsIncludes t sub

/-- Whitespace characters recognised when trimming (ASCII whitespace). -/
def isJsSpace (c : Char) : Bool :=
  c = ' ' || c = '\t' || c = '\n' || c = '\r' || c.toNat = 11 || c.toNat = 12

/-- Model of `String.prototype.trim` on the character list. -/
def jsTrimList (cs : List Char) : List Char :=
  ((cs.dropWhile isJsSpace).reverse.dropWhile isJsSpace).reverse

/-- Model of `String.prototype.trim`. -/
def jsTrim (s : String) : String := String.mk (jsTrimList s.data)

/-- An exact nonnegative decimal number as produced by `parseFloat` on the
captures appearing in this code base: integer part, fraction digits value,
and the number of fraction digits. -/
structure DecNum where
  ip : ℕ
  fp : ℕ
  flen : ℕ
deriving DecidableEq

/-- Rational value of a parsed decimal. -/
def DecNum.val (d : DecNum) : ℚ := (d.ip : ℚ) + (d.fp : ℚ) / 10 ^ d.flen

/-- Model of `parseFloat` restricted to the nonnegative decimal literals that
occur at the call sites of this code base (digit/dot captures of the colour
regexes and computed px lengths).  `none` models `NaN`. -/
def parseFloatDec (cs : List Char) : Option DecNum :=
  let ip := cs.takeWhile Char.isDigit
  let r := cs.dropWhile Char.isDigit
  match r with
  | '.' :: r2 =>
    let fp := r2.takeWhile Char.isDigit
    if ip = [] ∧ fp = [] then none
    else some ⟨digitsToNat ip, digitsToNat fp, fp.length⟩
  | _ => if ip = [] then none else some ⟨digitsToNat ip, 0, 0⟩

/-- Decimal digits of a natural number (0 is rendered as the single digit 0),
used to format integers the way `Number.prototype.toString` does. -/
def natDecimalChars (n : ℕ) : List Char := Nat.toDigits 10 n

/-- Model of `Number.prototype.toFixed(2)` for the exact rational results of
this code base.  Per the ECMAScript spec the scaled value is rounded to the
nearest integer, ties toward the larger integer. -/
def toFixed2 (q : ℚ) : String :=
  let n := jsRound (q * 100)
  let sign : List Char := if n < 0 then ['-'] else []
  let m := n.natAbs
  let frac := m % 100
  let fracChars := if frac < 10 then '0' :: natDecimalChars frac else natDecimalChars frac
  String.mk (sign ++ natDecimalChars (m / 100) ++ '.' :: fracChars)

/-- Stable insertion of one element into a key-descending list: the element
goes after every element of not smaller key, exactly where the stable ES2019
`Array.prototype.sort` with a `b - a` numeric comparator puts it. -/
def insertDescBy {α : Type} (key : α → ℤ) (e : α) : List α → List α
  | [] => [e]
  | x :: xs => if key x < key e then e :: x :: xs else x :: insertDescBy key e xs

/-- Stable key-descending sort modelling `Array.prototype.sort` with a
`(a, b) => keyOf b - keyOf a` comparator. -/
def sortDescBy {α : Type} (key : α → ℤ) (l : List α) : List α :=
  l.foldl (fun acc e => insertDescBy key e acc) []

namespace ColorAnalyzer

/-- Validity predicate of `colorAnalyzer.js` (`isValidColor`): rejects the
empty string (a falsy colour), the keyword `transparent`, the canonical fully
transparent rgba string, and the keywords `initial` and `inherit`. -/
def isValidColor (color : String) : Bool :=
  if color = "" then false
  else if color = "transparent" then false
  else if color = "rgba(0, 0, 0, 0)" then false
  else if color = "initial" ∨ color = "inherit" then false
  else true

/-- Selector-based category routing of `colorAnalyzer.js`
(`categorizeBySelector`). -/
def categorizeBySelector (selector ty : String) : String :=
  let sel := selector.data.map jsToLower
  if ty = "background" then
    if jsIncludes sel "btn".data || jsIncludes sel "button".data ||
        jsIncludes sel "primary".data then "primary"
    else "background"
  else if ty = "text" then
    if jsIncludes sel "btn".data || jsIncludes sel "button".data ||
        jsIncludes sel "link".data || jsIncludes sel "primary".data ||
        jsIncludes sel "accent".data then "accent"
    else "foreground"
  else "border"

/-- Characters accepted by `parseInt(x, 16)`: hex digits of either case. -/
def isHexDigit16 (c : Char) : Bool :=
  c.isDigit || (97 ≤ c.toNat ∧ c.toNat ≤ 102) || (65 ≤ c.toNat ∧ c.toNat ≤ 70)

/-- Value of one hex digit character. -/
def hexDigitVal (c : Char) : ℕ :=
  if c.isDigit then c.toNat - 48
  else if 97 ≤ c.toNat then c.toNat - 87
  else c.toNat - 55

/-- Model of `parseInt(x, 16)` on the slices taken inside `isNeutral`:
value of the leading run of hex digits, `none` (`NaN`) when there is none. -/
def parseIntHex (cs : List Char) : Option ℕ :=
  let digits := cs.takeWhile isHexDigit16
  if digits = [] then none else some (digits.foldl (fun n c => n * 16 + hexDigitVal c) 0)

/-- Neutrality test of `colorAnalyzer.js` (`isNeutral`): a null or empty hex
is neutral; otherwise HSV saturation `(max-min)/max` of the three channel
slices must be below `0.1`.  When a channel slice does not parse the source
computes with `NaN` and every `NaN` comparison is false, so the result is
`false`; the final match arm mirrors that. -/
def isNeutral (hex? : Option String) : Bool :=
  match hex? with
  | none => true
  | some hx =>
    if hx = "" then true
    else
      match parseIntHex ((hx.data.drop 1).take 2), parseIntHex ((hx.data.drop 3).take 2),
          parseIntHex ((hx.data.drop 5).take 2) with
      | some r, some g, some b =>
        let mx : ℚ := max (r : ℚ) (max (g : ℚ) (b : ℚ))
        let mn : ℚ := min (r : ℚ) (min (g : ℚ) (b : ℚ))
        let saturation : ℚ := if mx = 0 then 0 else (mx - mn) / mx
        decide (saturation < 1/10)
      | _, _, _ => false

end ColorAnalyzer

/-- Matcher for the regex `rgba?\s*\(\s*(\d+)\s*,\s*(\d+)\s*,\s*(\d+)`
anchored at the start of the list, returning the three digit captures.  The
pattern is deterministic (its adjacent pieces use disjoint character sets),
so greedy matching without backtracking is exact. -/
def matchRgbAt (cs : List Char) : Option (List Char × List Char × List Char) :=
  match cs with
  | 'r' :: 'g' :: 'b' :: rest =>
    let rest := match rest with
      | 'a' :: r => r
      | r => r
    match (rest.dropWhile isJsSpace) with
    | '(' :: r1 =>
      let d1 := (r1.dropWhile isJsSpace).takeWhile Char.isDigit
      let r2 := (r1.dropWhile isJsSpace).dropWhile Char.isDigit
      if d1 = [] then none else
      match (r2.dropWhile isJsSpace) with
      | ',' :: r3 =>
        let d2 := (r3.dropWhile isJsSpace).takeWhile Char.isDigit
        let r4 := (r3.dropWhile isJsSpace).dropWhile Char.isDigit
        if d2 = [] then none else
        match (r4.dropWhile isJsSpace) with
        | ',' :: r5 =>
          let d3 := (r5.dropWhile isJsSpace).takeWhile Char.isDigit
          if d3 = [] then none else some (d1, d2, d3)
        | _ => none
      | _ => none
    | _ => none
  | _ => none

/-- Character class `[\d.]` of the hsl regex. -/
def isDigitOrDot (c : Char) : Bool := c.isDigit || c = '.'

/-- Matcher for the regex `hsla?\s*\(\s*([\d.]+)\s*,\s*([\d.]+)%\s*,\s*([\d.]+)%`
anchored at the start of the list, returning the three captures. -/
def matchHslAt (cs : List Char) : Option (List Char × List Char × List Char) :=
  match cs with
  | 'h' :: 's' :: 'l' :: rest =>
    let rest := match rest with
      | 'a' :: r => r
      | r => r
    match (rest.dropWhile isJsSpace) with
    | '(' :: r1 =>
      let d1 := (r1.dropWhile isJsSpace).takeWhile isDigitOrDot
      let r2 := (r1.dropWhile isJsSpace).dropWhile isDigitOrDot
      if d1 = [] then none else
      match (r2.dropWhile isJsSpace) with
      | ',' :: r3 =>
        let d2 := (r3.dropWhile isJsSpace).takeWhile isDigitOrDot
        let r4 := (r3.dropWhile isJsSpace).dropWhile isDigitOrDot
        if d2 = [] then none else
        match r4 with
        | '%' :: r5 =>
          match (r5.dropWhile isJsSpace) with
          | ',' :: r6 =>
            let d3 := (r6.dropWhile isJsSpace).takeWhile isDigitOrDot
            let r7 := (r6.dropWhile isJsSpace).dropWhile isDigitOrDot
            if d3 = [] then none else
            match r7 with
            | '%' :: _ => some (d1, d2, d3)
            | _ => none
          | _ => none
        | _ => none
      | _ => none
    | _ => none
  | _ => none

/-- Model of `String.prototype.match` without an anchor: try the matcher at
every start position, first success wins. -/
def searchA {β : Type} (f : List Char → Option β) : List Char → Option β
  | [] => f []
  | c :: cs =>
    match f (c :: cs) with
    | some v => some v
    | none => searchA f cs

namespace ColorAnalyzer

/-- Piecewise hue-to-channel helper of `colorAnalyzer.js` (`hue2rgb`). -/
def hue2rgb (p q t : ℚ) : ℚ :=
  let t := if t < 0 then t + 1 else t
  let t := if t > 1 then t - 1 else t
  if t < 1/6 then p + (q - p) * 6 * t
  else if t < 1/2 then q
  else if t < 2/3 then p + (q - p) * (2/3 - t) * 6
  else p

/-- HSL to RGB conversion of `colorAnalyzer.js` (`hslToRgb`), channels scaled
to 0..255. -/
def hslToRgb (h s l : ℚ) : ℚ × ℚ × ℚ :=
  if s = 0 then (l * 255, l * 255, l * 255)
  else
    let q := if l < 1/2 then l * (1 + s) else l + s - l * s
    let p := 2 * l - q
    (hue2rgb p q (h + 1/3) * 255, hue2rgb p q h * 255, hue2rgb p q (h - 1/3) * 255)

/-- Model of `Number.prototype.toString(16)` for the rounded channel values
(lowercase digits; a negative value is rendered with a leading minus). -/
def intToHexChars (i : ℤ) : List Char :=
  if i < 0 then '-' :: Nat.toDigits 16 i.natAbs else Nat.toDigits 16 i.toNat

/-- Channel padding of `toHex`: prepend a zero when the hex rendering has a
single character. -/
def pad2 (cs : List Char) : List Char := if cs.length = 1 then '0' :: cs else cs

/-- Output of the rgb branch of `toHex` for parsed channel values. -/
def rgbOut (r g b : ℕ) : List Char :=
  '#' :: ((pad2 (Nat.toDigits 16 r) ++ pad2 (Nat.toDigits 16 g) ++ pad2 (Nat.toDigits 16 b)).map jsToUpper)

/-- Output of the hsl branch of `toHex` for the converted channel values. -/
def hslOut (h s l : ℚ) : List Char :=
  let c := hslToRgb h s l
  '#' :: ((pad2 (intToHexChars (jsRound c.1)) ++ pad2 (intToHexChars (jsRound c.2.1)) ++
    pad2 (intToHexChars (jsRound c.2.2))).map jsToUpper)

/-- Hash branch of `toHex`: uppercase, expand a 3-digit form, drop the alpha
of an 8-digit form, otherwise return as is. -/
def hashOut (color : List Char) : List Char :=
  let hex := color.map jsToUpper
  if hex.length = 4 then
    match hex with
    | _ :: h1 :: h2 :: h3 :: _ => ['#', h1, h1, h2, h2, h3, h3]
    | _ => hex
  else if hex.length = 9 then hex.take 7
  else hex

/-- Colour normalisation of `colorAnalyzer.js` (`toHex`), over a character
list.  The final named-colour branch paints an offscreen canvas and reads the
computed fill style back; that rendering-context round-trip is environment
behaviour, modelled by the `canvas` oracle argument.  A capture of the hsl
regex on which `parseFloat` yields `NaN` (an all-dots capture) would make the
source emit a nonsense `#NaN...` string; the model sends that corner to the
oracle instead, and no verified property depends on it. -/
def toHexA (canvas : List Char → Option (List Char)) (color : List Char) : Option (List Char) :=
  if color = [] then none
  else
    match (if ['r', 'g', 'b'].isPrefixOf color then searchA matchRgbAt color else none) with
    | some (c1, c2, c3) => some (rgbOut (digitsToNat c1) (digitsToNat c2) (digitsToNat c3))
    | none =>
      match (if ['h', 's', 'l'].isPrefixOf color then searchA matchHslAt color else none) with
      | some (c1, c2, c3) =>
        match parseFloatDec c1, parseFloatDec c2, parseFloatDec c3 with
        | some dh, some ds, some dl =>
          some (hslOut (dh.val / 360) (ds.val / 100) (dl.val / 100))
        | _, _, _ => canvas color
      | none =>
        if ['#'].isPrefixOf color then some (hashOut color) else canvas color

/-- String-level `toHex` with the canvas oracle unavailable (no rendering
context in the model; the claims below never depend on that branch). -/
def toHex (color : String) : Option String :=
  (toHexA (fun _ => none) color.data).map String.mk

/-- One entry of a per-category colour map: hex key, accumulated weight and
the set of source labels in insertion order. -/
structure ColorEntry where
  hex : String
  weight : ℕ
  sources : List String
deriving DecidableEq

/-- A per-category map, as the insertion-ordered entry list of the JS `Map`. -/
abbrev ColorMap := List ColorEntry

/-- Insertion-ordered set add used for the `sources` set. -/
def insertSource (srcs : List String) (s : String) : List String :=
  if s ∈ srcs then srcs else srcs ++ [s]

/-- Map update of `colorAnalyzer.js` (`addColor`): accumulate weight and
source on an existing hex, otherwise append a fresh entry. -/
def addColor (m : ColorMap) (hex source : String) (weight : ℕ) : ColorMap :=
  if hex = "" then m
  else if (m.find? (fun e => e.hex = hex)).isSome then
    m.map (fun e =>
      if e.hex = hex then
        { e with weight := e.weight + weight, sources := insertSource e.sources source }
      else e)
  else m ++ [⟨hex, weight, [source]⟩]

/-- The five per-category weighted colour maps. -/
structure Colors where
  background : ColorMap
  foreground : ColorMap
  primary : ColorMap
  accent : ColorMap
  border : ColorMap
deriving DecidableEq

/-- One record of the final palette. -/
structure PaletteItem where
  hex : String
  category : String
  weight : ℕ
  sources : String
deriving DecidableEq

/-- Comma join of `Array.prototype.join` with separator `, `. -/
def joinSources : List String → String
  | [] => ""
  | [s] => s
  | s :: rest => s ++ ", " ++ joinSources rest

/-- Palette record built from a map entry under a category label. -/
def mkPaletteItem (label : String) (e : ColorEntry) : PaletteItem :=
  ⟨e.hex, label, e.weight, joinSources (e.sources.take 3)⟩

/-- Stable weight-descending sort of a category map
(`Array.from(map.values()).sort((a, b) => b.weight - a.weight)`). -/
def sortByWeightDesc (m : ColorMap) : List ColorEntry :=
  sortDescBy (fun e => (e.weight : ℤ)) m

/-- Inner loop of `buildColorPalette`: walk a sorted category, skip hexes
already seen, otherwise push a labelled record and mark the hex seen. -/
def emitEntries (label : String) : List ColorEntry → List PaletteItem × List String →
    List PaletteItem × List String
  | [], st => st
  | e :: es, (res, seen) =>
    if e.hex ∈ seen then emitEntries label es (res, seen)
    else emitEntries label es (res ++ [mkPaletteItem label e], e.hex :: seen)

/-- Process one category of `buildColorPalette`. -/
def emitCategory (st : List PaletteItem × List String) (label : String) (m : ColorMap) :
    List PaletteItem × List String :=
  emitEntries label (sortByWeightDesc m) st

/-- Palette aggregation of `colorAnalyzer.js` (`buildColorPalette`): the five
categories in fixed priority order, each sorted by descending weight, with a
global seen-set deduplicating hex values, truncated to 20 records. -/
def buildColorPalette (colors : Colors) : List PaletteItem :=
  let st := emitCategory ([], []) "Primary" colors.primary
  let st := emitCategory st "Accent" colors.accent
  let st := emitCategory st "Background" colors.background
  let st := emitCategory st "Foreground" colors.foreground
  let st := emitCategory st "Border" colors.border
  st.1.take 20

/-- Computed style sample of one key element: the four properties the
key-element pass reads. -/
structure ComputedStyle where
  backgroundColor : String
  color : String
  borderTopColor : String
  borderTopWidth : String
deriving DecidableEq

/-- The key elements sampled by `analyzeKeyElements`, with their computed
styles: body and html (when present), button-like elements, links, headings
(tag name and style), container-like elements (tag name and style) and form
inputs. -/
structure KeyPage where
  body : Option ComputedStyle
  html : Option ComputedStyle
  buttons : List ComputedStyle
  links : List ComputedStyle
  headings : List (String × ComputedStyle)
  containers : List (String × ComputedStyle)
  inputs : List ComputedStyle

/-- Body sampling of `analyzeKeyElements`: background at weight 1000 when not
pure white or black, else 500; text colour at weight 1000. -/
def addBodyColors (st? : Option ComputedStyle) (colors : Colors) : Colors :=
  match st? with
  | none => colors
  | some st =>
    let colors := match toHex st.backgroundColor with
      | some h =>
        if h ≠ "#FFFFFF" ∧ h ≠ "#000000" then
          { colors with background := addColor colors.background h "body" 1000 }
        else { colors with background := addColor colors.background h "body" 500 }
      | none => colors
    match toHex st.color with
    | some h => { colors with foreground := addColor colors.foreground h "body" 1000 }
    | none => colors

/-- Html background sampling of `analyzeKeyElements` at weight 800. -/
def addHtmlColors (st? : Option ComputedStyle) (colors : Colors) : Colors :=
  match st? with
  | none => colors
  | some st =>
    match toHex st.backgroundColor with
    | some h =>
      if isValidColor st.backgroundColor then
        { colors with background := addColor colors.background h "html" 800 }
      else colors
    | none => colors

/-- Per-button step of `analyzeKeyElements`: a valid non-neutral background
goes to primary (weight 100), a non-neutral text colour to accent (50). -/
def addButtonColors (colors : Colors) (st : ComputedStyle) : Colors :=
  let colors := match toHex st.backgroundColor with
    | some h =>
      if isValidColor st.backgroundColor ∧ isNeutral (some h) = false then
        { colors with primary := addColor colors.primary h "button" 100 }
      else colors
    | none => colors
  match toHex st.color with
  | some h =>
    if isNeutral (some h) = false then
      { colors with accent := addColor colors.accent h "button-text" 50 }
    else colors
  | none => colors

/-- The link pass first collects the distinct non-neutral link colours into a
set (insertion order), then adds each to accent at weight 80. -/
def collectLinkColors (links : List ComputedStyle) : List String :=
  links.foldl (fun acc st =>
    match toHex st.color with
    | some h => if isNeutral (some h) = false then insertSource acc h else acc
    | none => acc) []

/-- Per-heading step: heading text colour to foreground at weight 60, the tag
name as source label. -/
def addHeadingColors (colors : Colors) (p : String × ComputedStyle) : Colors :=
  match toHex p.2.color with
  | some h => { colors with foreground := addColor colors.foreground h p.1 60 }
  | none => colors

/-- Per-container step: a valid background to background (40); a valid top
border colour with positive parsed border width to border (30). -/
def addContainerColors (colors : Colors) (p : String × ComputedStyle) : Colors :=
  let colors := match toHex p.2.backgroundColor with
    | some h =>
      if isValidColor p.2.backgroundColor then
        { colors with background := addColor colors.background h p.1 40 }
      else colors
    | none => colors
  match toHex p.2.borderTopColor with
  | some h =>
    if isValidColor p.2.borderTopColor ∧
        (match parseFloatDec p.2.borderTopWidth.data with
          | some d => decide (0 < d.val)
          | none => false) = true then
      { colors with border := addColor colors.border h "container-border" 30 }
    else colors
  | none => colors

/-- Per-input step: a valid top border colour to border at weight 20. -/
def addInputColors (colors : Colors) (st : ComputedStyle) : Colors :=
  match toHex st.borderTopColor with
  | some h =>
    if isValidColor st.borderTopColor then
      { colors with border := addColor colors.border h "input" 20 }
    else colors
  | none => colors

/-- Key-element pass of `colorAnalyzer.js` (`analyzeKeyElements`): body, html,
buttons, links, headings, containers and inputs, in source order. -/
def analyzeKeyElements (page : KeyPage) (colors : Colors) : Colors :=
  let colors := addBodyColors page.body colors
  let colors := addHtmlColors page.html colors
  let colors := page.buttons.foldl addButtonColors colors
  let colors := (collectLinkColors page.links).foldl
    (fun cs h => { cs with accent := addColor cs.accent h "link" 80 }) colors
  let colors := page.headings.foldl addHeadingColors colors
  let colors := page.containers.foldl addContainerColors colors
  page.inputs.foldl addInputColors colors

end ColorAnalyzer

namespace TypographyAnalyzer

/-- An element as sampled by the typography module: its text content and its
computed `font-family` value. -/
structure TElem where
  textContent : String
  fontFamily : String
deriving DecidableEq

/-- Text test of the typography module (`hasTextContent`): a truthy text
content whose trimmed length is positive. -/
def hasTextContent (e : TElem) : Bool :=
  e.textContent ≠ "" && (jsTrim e.textContent).data.length > 0

/-- Split a character list on a separator character (`String.prototype.split`
always yields at least one group). -/
def splitListOn (sep : Char) : List Char → List (List Char)
  | [] => [[]]
  | c :: cs =>
    if c = sep then [] :: splitListOn sep cs
    else
      match splitListOn sep cs with
      | [] => [[c]]
      | g :: gs => (c :: g) :: gs

/-- Quote stripping of `cleanFontFamily` (`replace(/["']/g, '')`). -/
def stripQuotes (cs : List Char) : List Char :=
  cs.filter (fun c => c ≠ '"' ∧ c ≠ Char.ofNat 39)

/-- The generic and system font names skipped by `cleanFontFamily`. -/
def systemFonts : List String :=
  ["system-ui", "-apple-system", "BlinkMacSystemFont", "Segoe UI", "sans-serif", "serif",
    "monospace"]

/-- Primary font extraction of the typography module (`cleanFontFamily`):
first comma-separated entry, trimmed and unquoted; when that entry is a known
system font and a second entry exists, the second entry instead. -/
def cleanFontFamily (fontFamily : String) : Option String :=
  if fontFamily = "" then none
  else
    let fonts := splitListOn ',' fontFamily.data
    let primaryFont := stripQuotes (jsTrimList (fonts.headD []))
    let primaryFont :=
      if String.mk primaryFont ∈ systemFonts ∧ fonts.length > 1 then
        stripQuotes (jsTrimList ((fonts.drop 1).headD []))
      else primaryFont
    some (String.mk primaryFont)

/-- One font usage record of the output. -/
structure FontRecord where
  name : String
  usage : ℤ
deriving DecidableEq

/-- Occurrence-count bump of the `fontMap`: increment an existing name,
otherwise append it with count one. -/
def bumpCount (m : List (String × ℕ)) (name : String) : List (String × ℕ) :=
  if (m.find? (fun p => p.1 = name)).isSome then
    m.map (fun p => if p.1 = name then (p.1, p.2 + 1) else p)
  else m ++ [(name, 1)]

/-- Scan step of `analyzeFontFamilies`: skip elements without text, resolve
the font family, and when truthy count it and the element. -/
def fontScanStep (acc : List (String × ℕ) × ℕ) (e : TElem) : List (String × ℕ) × ℕ :=
  if hasTextContent e then
    match cleanFontFamily e.fontFamily with
    | some f => if f ≠ "" then (bumpCount acc.1 f, acc.2 + 1) else acc
    | none => acc
  else acc

/-- Stable usage-descending sort of the font records (comparator
`b.usage - a.usage`). -/
def sortByUsageDesc (l : List FontRecord) : List FontRecord :=
  sortDescBy FontRecord.usage l

/-- Font family ranking of the typography module (`analyzeFontFamilies`) over
the sampled elements: per-name counts over the qualifying population, usage
as the rounded percentage, entries below one percent dropped, sorted by
descending usage and capped at ten. -/
def analyzeFontFamilies (elements : List TElem) : List FontRecord :=
  let scan := elements.foldl fontScanStep ([], 0)
  let fontMap := scan.1
  let totalElements := scan.2
  let fonts := fontMap.map (fun p =>
    FontRecord.mk p.1 (jsRound ((p.2 : ℚ) / (totalElements : ℚ) * 100)))
  ((sortByUsageDesc (fonts.filter (fun f => 1 ≤ f.usage))).take 10)

/-- Line-height normalisation of the typography module
(`normalizeLineHeight`): the keyword `normal` becomes `1.2`; a px value is
divided by the parsed font size when that is positive and rendered with two
decimals; everything else passes through.  A px line-height whose own parse
is `NaN` (no digits) with a positive font size makes the source format `NaN`;
the model returns the string `NaN` there. -/
def normalizeLineHeight (lineHeight fontSize : String) : String :=
  if lineHeight = "normal" then "1.2"
  else if ['p', 'x'].isSuffixOf lineHeight.data then
    match parseFloatDec fontSize.data with
    | some fs =>
      if 0 < fs.val then
        match parseFloatDec lineHeight.data with
        | some lh => toFixed2 (lh.val / fs.val)
        | none => "NaN"
      else lineHeight
    | none => lineHeight
  else lineHeight

/-- A DOM child node: its node type and text content. -/
structure DomNode where
  nodeType : ℕ
  textContent : String
deriving DecidableEq

/-- A DOM element as probed by `analyzeBodyText`: an identity tag and its
child nodes. -/
structure DomElem where
  id : ℕ
  childNodes : List DomNode
deriving DecidableEq

/-- The document capability `analyzeBodyText` reads: `querySelector` and
`document.body`. -/
structure TDoc where
  query : String → Option DomElem
  body : DomElem

/-- Direct text test of the typography module (`hasDirectTextContent`): some
child node is a text node (type 3) with nonempty trimmed content. -/
def hasDirectTextContent (e : DomElem) : Bool :=
  e.childNodes.any (fun n => n.nodeType = 3 && (jsTrim n.textContent).data.length > 0)

/-- The probe order of `analyzeBodyText`. -/
def bodyTextSelectors : List String := ["p", "body", ".content", "main", "article"]

/-- Probe loop of `analyzeBodyText`: the loop variable is overwritten with
each query result and the loop breaks at the first element with direct text;
the value left in the variable after the loop is returned. -/
def bodyTextProbe (d : TDoc) : List String → Option DomElem → Option DomElem
  | [], el => el
  | s :: rest, _ =>
    match d.query s with
    | some e => if hasDirectTextContent e then some e else bodyTextProbe d rest (some e)
    | none => bodyTextProbe d rest none

/-- Element selection of `analyzeBodyText` (the snapshot source): the probe
loop result, falling back to `document.body` only when that is null. -/
def pickBodyTextElement (d : TDoc) : DomElem :=
  (bodyTextProbe d bodyTextSelectors none).getD d.body

end TypographyAnalyzer

namespace ImageAnalyzer

/-- An inline svg element as sampled by the image module: its bounding box
and its width and height attributes (absent attributes are `none`), plus its
serialised markup. -/
structure SvgElem where
  rectW : ℚ
  rectH : ℚ
  attrW : Option String
  attrH : Option String
  content : String
deriving DecidableEq

/-- A width or height of an svg record: rounded box dimension, attribute
string fallback, or null — the value of `Math.round(rect.w) || attr || null`. -/
inductive SvgDim where
  | num (n : ℤ)
  | str (s : String)
  | null
deriving DecidableEq

/-- Dimension resolution of `getSvgInfo`: the rounded box dimension when
truthy (nonzero), else the attribute when truthy (present and nonempty),
else null. -/
def svgDim (rectV : ℚ) (attr : Option String) : SvgDim :=
  let r := jsRound rectV
  if r ≠ 0 then .num r
  else
    match attr with
    | some a => if a ≠ "" then .str a else .null
    | none => .null

/-- The non-logo svg record of `getSvgInfo` (the serialisation round-trip of
the clone is modelled as the element markup; the xmlns and size attribute
rewriting does not affect which records exist). -/
structure SvgInfo where
  width : SvgDim
  height : SvgDim
  content : String
deriving DecidableEq

/-- Record built for one svg (`getSvgInfo(svg, false)`; never null for a
non-null element). -/
def getSvgInfo (svg : SvgElem) : SvgInfo :=
  ⟨svgDim svg.rectW svg.attrW, svgDim svg.rectH svg.attrH, svg.content⟩

/-- Inline svg enumeration of the image module (`getInlineSvgs`): walk the
svg elements, skip one only when both box dimensions are below five, push a
record for every other element. -/
def getInlineSvgs (svgs : List SvgElem) : List SvgInfo :=
  svgs.foldl (fun acc svg =>
    if svg.rectW < 5 ∧ svg.rectH < 5 then acc else acc ++ [getSvgInfo svg]) []

end ImageAnalyzer

/-- A probe body element with no direct text child. -/
def probeBody : TypographyAnalyzer.DomElem := ⟨0, []⟩

/-- A probe article element, distinct from the body, with no direct text
child. -/
def probeArticle : TypographyAnalyzer.DomElem := ⟨1, []⟩

/-- A document in which the probes for `p`, `.content` and `main` match
nothing, `body` matches the body and `article` matches a distinct article
element, and no probed candidate has direct text. -/
def probeDoc : TypographyAnalyzer.TDoc :=
  ⟨fun s =>
    if s = "body" then some probeBody
    else if s = "article" then some probeArticle
    else none,
    probeBody⟩

/-- Invariant of the palette build state: emitted hexes are distinct and all
of them are in the seen set. -/
def PaletteInv (st : List ColorAnalyzer.PaletteItem × List String) : Prop :=
  (st.1.map (fun i => i.hex)).Nodup ∧ ∀ i ∈ st.1, i.hex ∈ st.2

/-- Colour maps of the C1 witness: the hex `#AA0000` qualifies for both
Primary (weight 2) and Background (weight 7). -/
def paletteWitnessColors : ColorAnalyzer.Colors :=
  ⟨[⟨"#AA0000", 7, ["body"]⟩], [], [⟨"#AA0000", 2, ["button"]⟩], [], []⟩

/-- Rank of a category label in the fixed emission order. -/
def categoryRank (s : String) : ℕ :=
  if s = "Primary" then 0
  else if s = "Accent" then 1
  else if s = "Background" then 2
  else if s = "Foreground" then 3
  else if s = "Border" then 4
  else 5

/-- Order relation of the palette output: category ranks never decrease, and
records of one category descend by weight. -/
def PaletteRel (a b : ColorAnalyzer.PaletteItem) : Prop :=
  categoryRank a.category ≤ categoryRank b.category ∧
    (a.category = b.category → b.weight ≤ a.weight)

/-- Colour maps of the C6 witness. -/
def paletteOrderWitnessColors : ColorAnalyzer.Colors :=
  ⟨[⟨"#445566", 9, ["body"]⟩], [], [⟨"#112233", 5, ["button"]⟩], [], []⟩

/-- An element qualifies for the font census when it has text and its
resolved font family is truthy. -/
def fontQualifies (e : TypographyAnalyzer.TElem) : Bool :=
  TypographyAnalyzer.hasTextContent e &&
    (match TypographyAnalyzer.cleanFontFamily e.fontFamily with
      | some f => f ≠ ""
      | none => false)

/-- The resolved primary font token of an element. -/
def resolvedFont (e : TypographyAnalyzer.TElem) : String :=
  (TypographyAnalyzer.cleanFontFamily e.fontFamily).getD ""

/-- Count held by the first map entry of a name (0 when absent). -/
def lookupCount : List (String × ℕ) → String → ℕ
  | [], _ => 0
  | p :: ps, name => if p.1 = name then p.2 else lookupCount ps name

/-- The sixteen uppercase hex digit characters. -/
def upperHexDigits : List Char := "0123456789ABCDEF".data

/-- All hex digit characters of either case. -/
def hexDigitChars : List Char := "0123456789abcdefABCDEF".data

/-- Test for the claimed output shape: a hash sign followed by exactly six
uppercase hex digits. -/
def isUpperHex6 (l : List Char) : Bool :=
  match l with
  | '#' :: rest => rest.length == 6 && rest.all (fun c => decide (c ∈ upperHexDigits))
  | _ => false

/-- Output shape test lifted to the optional result of `toHex`. -/
def outIsUpperHex6 : Option (List Char) → Bool
  | some l => isUpperHex6 l
  | none => false

section ClaimC3

/-- C3 counterexample: the selector `link` contains the token `link`, yet
`categorizeBySelector` routes it with type `background` to `background`, not
to `primary` as the claim predicts (the background branch of the source only
tests `btn`, `button` and `primary`). -/
theorem categorizeBySelector_link_counterexample :
    ColorAnalyzer.categorizeBySelector "link" "background" = "background" ∧
      jsIncludes ("link".data.map jsToLower) "link".data = true ∧
      ColorAnalyzer.categorizeBySelector "link" "background" ≠ "primary" := by
  decide

/-- C3 (amended): for type `background` the result is `primary` exactly when
the lowercased selector contains one of `btn`, `button`, `primary` (else
`background`); for type `text` the result is `accent` exactly when it
contains one of `btn`, `button`, `link`, `primary`, `accent` (else
`foreground`). -/
theorem categorizeBySelector_token_routing (selector : String) :
    ((ColorAnalyzer.categorizeBySelector selector "background" = "primary") ↔
      (jsIncludes (selector.data.map jsToLower) "btn".data = true ∨
        jsIncludes (selector.data.map jsToLower) "button".data = true ∨
        jsIncludes (selector.data.map jsToLower) "primary".data = true)) ∧
    ((ColorAnalyzer.categorizeBySelector selector "background" = "background") ↔
      ¬(jsIncludes (selector.data.map jsToLower) "btn".data = true ∨
        jsIncludes (selector.data.map jsToLower) "button".data = true ∨
        jsIncludes (selector.data.map jsToLower) "primary".data = true)) ∧
    ((ColorAnalyzer.categorizeBySelector selector "text" = "accent") ↔
      (jsIncludes (selector.data.map jsToLower) "btn".data = true ∨
        jsIncludes (selector.data.map jsToLower) "button".data = true ∨
        jsIncludes (selector.data.map jsToLower) "link".data = true ∨
        jsIncludes (selector.data.map jsToLower) "primary".data = true ∨
        jsIncludes (selector.data.map jsToLower) "accent".data = true)) ∧
    ((ColorAnalyzer.categorizeBySelector selector "text" = "foreground") ↔
      ¬(jsIncludes (selector.data.map jsToLower) "btn".data = true ∨
        jsIncludes (selector.data.map jsToLower) "button".data = true ∨
        jsIncludes (selector.data.map jsToLower) "link".data = true ∨
        jsIncludes (selector.data.map jsToLower) "primary".data = true ∨
        jsIncludes (selector.data.map jsToLower) "accent".data = true)) := by
  unfold ColorAnalyzer.categorizeBySelector
  rcases hbtn : jsIncludes (selector.data.map jsToLower) "btn".data <;>
    rcases hbutton : jsIncludes (selector.data.map jsToLower) "button".data <;>
    rcases hlink : jsIncludes (selector.data.map jsToLower) "link".data <;>
    rcases hprim : jsIncludes (selector.data.map jsToLower) "primary".data <;>
    rcases hacc : jsIncludes (selector.data.map jsToLower) "accent".data <;>
    simp_all

/-- C3 witness: instance of the routing theorem at the selector `.btn-save`. -/
theorem categorizeBySelector_token_routing_witness :
    ColorAnalyzer.categorizeBySelector ".btn-save" "background" = "primary" := by
  exact (categorizeBySelector_token_routing ".btn-save").1.mpr (Or.inl (by decide))

end ClaimC3

section ClaimC5

/-- C5 counterexample: `rgba(255, 0, 0, 0)` is a fully transparent rgba
value (alpha component 0), yet `isValidColor` accepts it — the source only
rejects the one canonical string `rgba(0, 0, 0, 0)`, so the claim is false
at this input. -/
theorem isValidColor_transparent_alpha_counterexample :
    ColorAnalyzer.isValidColor "rgba(255, 0, 0, 0)" = true := by decide

/-- C5 (amended): `isValidColor` returns false exactly for the empty string,
`transparent`, the canonical fully transparent string `rgba(0, 0, 0, 0)`,
`initial` and `inherit`, and true for every other string. -/
theorem isValidColor_rejects_exactly (color : String) :
    ColorAnalyzer.isValidColor color = false ↔
      color = "" ∨ color = "transparent" ∨ color = "rgba(0, 0, 0, 0)" ∨
        color = "initial" ∨ color = "inherit" := by
  unfold ColorAnalyzer.isValidColor
  split_ifs with h1 h2 h3 h4 <;> simp_all

/-- C5 witness: instance of the characterisation at `transparent`. -/
theorem isValidColor_rejects_exactly_witness :
    ColorAnalyzer.isValidColor "transparent" = false := by
  exact (isValidColor_rejects_exactly "transparent").mpr (Or.inr (Or.inl rfl))

end ClaimC5

section ClaimC8

/-- C8 counterexample: an svg whose bounding box is 3 by 10 has width below
five, so the claim excludes it, yet `getInlineSvgs` includes it — the source
skips an svg only when both dimensions are below five. -/
theorem getInlineSvgs_narrow_counterexample :
    ImageAnalyzer.getInlineSvgs [⟨3, 10, none, none, "markup"⟩] =
      [ImageAnalyzer.getSvgInfo ⟨3, 10, none, none, "markup"⟩] ∧ (3 : ℚ) < 5 := by
  constructor
  · unfold ImageAnalyzer.getInlineSvgs
    simp only [List.foldl]
    rw [if_neg (by norm_num : ¬((3 : ℚ) < 5 ∧ (10 : ℚ) < 5))]
    simp
  · norm_num

/-- C8 (amended): `getInlineSvgs` includes an svg exactly when its bounding
box width is at least five or its height is at least five; only svgs with
both dimensions below five are excluded. -/
theorem getInlineSvgs_size_filter (svgs : List ImageAnalyzer.SvgElem) :
    ImageAnalyzer.getInlineSvgs svgs =
      (svgs.filter (fun s => decide (5 ≤ s.rectW) || decide (5 ≤ s.rectH))).map
        ImageAnalyzer.getSvgInfo := by
  have key : ∀ (l : List ImageAnalyzer.SvgElem) (acc : List ImageAnalyzer.SvgInfo),
      l.foldl (fun acc svg =>
        if svg.rectW < 5 ∧ svg.rectH < 5 then acc else acc ++ [ImageAnalyzer.getSvgInfo svg]) acc =
      acc ++ (l.filter (fun s => decide (5 ≤ s.rectW) || decide (5 ≤ s.rectH))).map
        ImageAnalyzer.getSvgInfo := by
    intro l
    induction l with
    | nil => intro acc; simp
    | cons s rest ih =>
      intro acc
      by_cases hc : s.rectW < 5 ∧ s.rectH < 5
      · have hfilter : (decide (5 ≤ s.rectW) || decide (5 ≤ s.rectH)) = false := by
          simp only [Bool.or_eq_false_iff, decide_eq_false_iff_not, not_le]
          exact hc
        simp only [List.foldl, List.filter, hfilter, if_pos hc]
        exact ih acc
      · have hfilter : (decide (5 ≤ s.rectW) || decide (5 ≤ s.rectH)) = true := by
          rcases not_and_or.mp hc with h | h
          · simp [not_lt.mp h]
          · simp [not_lt.mp h]
        simp only [List.foldl, List.filter, hfilter, if_neg hc]
        rw [ih (acc ++ [ImageAnalyzer.getSvgInfo s])]
        simp
  unfold ImageAnalyzer.getInlineSvgs
  rw [key svgs []]
  simp

/-- C8 witness: instance of the size filter at a 20 by 20 svg. -/
theorem getInlineSvgs_size_filter_witness :
    ImageAnalyzer.getInlineSvgs [⟨20, 20, none, none, "m"⟩] =
      ([(⟨20, 20, none, none, "m"⟩ : ImageAnalyzer.SvgElem)].filter
        (fun s => decide (5 ≤ s.rectW) || decide (5 ≤ s.rectH))).map
        ImageAnalyzer.getSvgInfo := by
  exact getInlineSvgs_size_filter [⟨20, 20, none, none, "m"⟩]

end ClaimC8

section ClaimC4

/-- C4: in a document where no probed candidate has direct text but an
article element exists, the snapshot element left in the loop variable is the
article element, not `document.body` — the `if (!element)` fallback never
fires because the last probe left a non-null element behind.  This
contradicts both the claim and the source comment announcing a fallback to
body. -/
theorem analyzeBodyText_fallback_divergence :
    TypographyAnalyzer.pickBodyTextElement probeDoc = probeArticle ∧
      probeArticle ≠ probeDoc.body ∧
      (TypographyAnalyzer.bodyTextSelectors.all (fun s =>
        match probeDoc.query s with
        | some e => !TypographyAnalyzer.hasDirectTextContent e
        | none => true)) = true := by
  decide

end ClaimC4

section ClaimC10

/-- A projection left unchanged by every fold step is unchanged by the fold. -/
theorem foldl_proj_preserved {α β γ : Type} (p : β → γ) (f : β → α → β)
    (h : ∀ b a, p (f b a) = p b) : ∀ (l : List α) (b : β), p (l.foldl f b) = p b := by
  intro l
  induction l with
  | nil => intro b; rfl
  | cons x xs ih => intro b; rw [List.foldl, ih, h]

/-- A fold whose steps fix the accumulator on every list element is the
identity. -/
theorem foldl_id_of_mem {α β : Type} (f : β → α → β) (l : List α)
    (h : ∀ a ∈ l, ∀ b, f b a = b) : ∀ b, l.foldl f b = b := by
  induction l with
  | nil => intro b; rfl
  | cons x xs ih =>
    intro b
    rw [List.foldl, h x (List.mem_cons_self x xs)]
    exact (ih fun a ha b => h a (List.mem_cons_of_mem x ha) b) b

/-- The body step never touches the primary map. -/
theorem addBodyColors_primary (st? : Option ColorAnalyzer.ComputedStyle)
    (c : ColorAnalyzer.Colors) : (ColorAnalyzer.addBodyColors st? c).primary = c.primary := by
  cases st? with
  | none => rfl
  | some st =>
    cases hb : ColorAnalyzer.toHex st.backgroundColor <;>
      cases ht : ColorAnalyzer.toHex st.color <;>
      simp only [ColorAnalyzer.addBodyColors, hb, ht] <;> (try split_ifs) <;> rfl

/-- The body step never touches the accent map. -/
theorem addBodyColors_accent (st? : Option ColorAnalyzer.ComputedStyle)
    (c : ColorAnalyzer.Colors) : (ColorAnalyzer.addBodyColors st? c).accent = c.accent := by
  cases st? with
  | none => rfl
  | some st =>
    cases hb : ColorAnalyzer.toHex st.backgroundColor <;>
      cases ht : ColorAnalyzer.toHex st.color <;>
      simp only [ColorAnalyzer.addBodyColors, hb, ht] <;> (try split_ifs) <;> rfl

/-- The html step never touches the primary map. -/
theorem addHtmlColors_primary (st? : Option ColorAnalyzer.ComputedStyle)
    (c : ColorAnalyzer.Colors) : (ColorAnalyzer.addHtmlColors st? c).primary = c.primary := by
  cases st? with
  | none => rfl
  | some st =>
    cases hb : ColorAnalyzer.toHex st.backgroundColor <;>
      simp only [ColorAnalyzer.addHtmlColors, hb] <;> (try split_ifs) <;> rfl

/-- The html step never touches the accent map. -/
theorem addHtmlColors_accent (st? : Option ColorAnalyzer.ComputedStyle)
    (c : ColorAnalyzer.Colors) : (ColorAnalyzer.addHtmlColors st? c).accent = c.accent := by
  cases st? with
  | none => rfl
  | some st =>
    cases hb : ColorAnalyzer.toHex st.backgroundColor <;>
      simp only [ColorAnalyzer.addHtmlColors, hb] <;> (try split_ifs) <;> rfl

/-- The heading step never touches the primary map. -/
theorem addHeadingColors_primary (c : ColorAnalyzer.Colors)
    (p : String × ColorAnalyzer.ComputedStyle) :
    (ColorAnalyzer.addHeadingColors c p).primary = c.primary := by
  cases hc : ColorAnalyzer.toHex p.2.color <;>
    simp only [ColorAnalyzer.addHeadingColors, hc]

/-- The heading step never touches the accent map. -/
theorem addHeadingColors_accent (c : ColorAnalyzer.Colors)
    (p : String × ColorAnalyzer.ComputedStyle) :
    (ColorAnalyzer.addHeadingColors c p).accent = c.accent := by
  cases hc : ColorAnalyzer.toHex p.2.color <;>
    simp only [ColorAnalyzer.addHeadingColors, hc]

/-- The container step never touches the primary map. -/
theorem addContainerColors_primary (c : ColorAnalyzer.Colors)
    (p : String × ColorAnalyzer.ComputedStyle) :
    (ColorAnalyzer.addContainerColors c p).primary = c.primary := by
  cases hb : ColorAnalyzer.toHex p.2.backgroundColor <;>
    cases hc : ColorAnalyzer.toHex p.2.borderTopColor <;>
    simp only [ColorAnalyzer.addContainerColors, hb, hc] <;> (try split_ifs) <;> rfl

/-- The container step never touches the accent map. -/
theorem addContainerColors_accent (c : ColorAnalyzer.Colors)
    (p : String × ColorAnalyzer.ComputedStyle) :
    (ColorAnalyzer.addContainerColors c p).accent = c.accent := by
  cases hb : ColorAnalyzer.toHex p.2.backgroundColor <;>
    cases hc : ColorAnalyzer.toHex p.2.borderTopColor <;>
    simp only [ColorAnalyzer.addContainerColors, hb, hc] <;> (try split_ifs) <;> rfl

/-- The input step never touches the primary map. -/
theorem addInputColors_primary (c : ColorAnalyzer.Colors)
    (st : ColorAnalyzer.ComputedStyle) :
    (ColorAnalyzer.addInputColors c st).primary = c.primary := by
  cases hc : ColorAnalyzer.toHex st.borderTopColor <;>
    simp only [ColorAnalyzer.addInputColors, hc] <;> (try split_ifs) <;> rfl

/-- The input step never touches the accent map. -/
theorem addInputColors_accent (c : ColorAnalyzer.Colors)
    (st : ColorAnalyzer.ComputedStyle) :
    (ColorAnalyzer.addInputColors c st).accent = c.accent := by
  cases hc : ColorAnalyzer.toHex st.borderTopColor <;>
    simp only [ColorAnalyzer.addInputColors, hc] <;> (try split_ifs) <;> rfl

/-- A button whose colours both fail to normalise contributes nothing. -/
theorem addButtonColors_none (c : ColorAnalyzer.Colors) (st : ColorAnalyzer.ComputedStyle)
    (h1 : ColorAnalyzer.toHex st.backgroundColor = none)
    (h2 : ColorAnalyzer.toHex st.color = none) : ColorAnalyzer.addButtonColors c st = c := by
  simp only [ColorAnalyzer.addButtonColors, h1, h2]

/-- When every link colour fails to normalise the collected link set is
empty. -/
theorem collectLinkColors_none (l : List ColorAnalyzer.ComputedStyle)
    (h : ∀ st ∈ l, ColorAnalyzer.toHex st.color = none) :
    ColorAnalyzer.collectLinkColors l = [] := by
  unfold ColorAnalyzer.collectLinkColors
  exact foldl_id_of_mem _ l (fun st hst acc => by rw [h st hst]) []

end ClaimC10

/-- C10: `isNeutral` is true on a null and on an empty hex argument, and any
colour whose `toHex` normalisation fails contributes nothing to the primary
or accent maps during the key-element pass: when every button and link colour
fails to normalise, both maps come out unchanged. -/
theorem isNeutral_nullish_blocks_key_pass :
    ColorAnalyzer.isNeutral none = true ∧ ColorAnalyzer.isNeutral (some "") = true ∧
    ∀ (page : ColorAnalyzer.KeyPage) (colors : ColorAnalyzer.Colors),
      (∀ st ∈ page.buttons, ColorAnalyzer.toHex st.backgroundColor = none ∧
        ColorAnalyzer.toHex st.color = none) →
      (∀ st ∈ page.links, ColorAnalyzer.toHex st.color = none) →
      (ColorAnalyzer.analyzeKeyElements page colors).primary = colors.primary ∧
        (ColorAnalyzer.analyzeKeyElements page colors).accent = colors.accent := by
  refine ⟨rfl, by decide, ?_⟩
  intro page colors hbtn hlink
  simp only [ColorAnalyzer.analyzeKeyElements]
  rw [foldl_id_of_mem ColorAnalyzer.addButtonColors page.buttons
    (fun a ha b => addButtonColors_none b a (hbtn a ha).1 (hbtn a ha).2)]
  rw [collectLinkColors_none page.links hlink]
  simp only [List.foldl_nil]
  constructor
  · rw [foldl_proj_preserved ColorAnalyzer.Colors.primary ColorAnalyzer.addInputColors
      addInputColors_primary]
    rw [foldl_proj_preserved ColorAnalyzer.Colors.primary ColorAnalyzer.addContainerColors
      addContainerColors_primary]
    rw [foldl_proj_preserved ColorAnalyzer.Colors.primary ColorAnalyzer.addHeadingColors
      addHeadingColors_primary]
    rw [addHtmlColors_primary, addBodyColors_primary]
  · rw [foldl_proj_preserved ColorAnalyzer.Colors.accent ColorAnalyzer.addInputColors
      addInputColors_accent]
    rw [foldl_proj_preserved ColorAnalyzer.Colors.accent ColorAnalyzer.addContainerColors
      addContainerColors_accent]
    rw [foldl_proj_preserved ColorAnalyzer.Colors.accent ColorAnalyzer.addHeadingColors
      addHeadingColors_accent]
    rw [addHtmlColors_accent, addBodyColors_accent]

/-- C10 witness: a page with one button and one link whose computed colours
are empty strings (`toHex` fails on them) leaves the primary and accent maps
empty. -/
theorem isNeutral_nullish_blocks_key_pass_witness :
    (ColorAnalyzer.analyzeKeyElements
        ⟨none, none, [⟨"", "", "", ""⟩], [⟨"", "", "", ""⟩], [], [], []⟩
        ⟨[], [], [], [], []⟩).primary = ([] : ColorAnalyzer.ColorMap) ∧
      (ColorAnalyzer.analyzeKeyElements
        ⟨none, none, [⟨"", "", "", ""⟩], [⟨"", "", "", ""⟩], [], [], []⟩
        ⟨[], [], [], [], []⟩).accent = ([] : ColorAnalyzer.ColorMap) :=
  isNeutral_nullish_blocks_key_pass.2.2
    ⟨none, none, [⟨"", "", "", ""⟩], [⟨"", "", "", ""⟩], [], [], []⟩
    ⟨[], [], [], [], []⟩ (by decide) (by decide)


section ClaimC9

/-- C9: `normalizeLineHeight` yields `1.2` for the keyword `normal`, divides
a px line-height by a positive parsed font size and renders two decimals, and
passes anything else through unchanged; in particular `24px` over `16px`
gives `1.50`. -/
theorem normalizeLineHeight_cases :
    (∀ fontSize, TypographyAnalyzer.normalizeLineHeight "normal" fontSize = "1.2") ∧
    (∀ lineHeight fontSize dlh dfs,
      (['p', 'x'].isSuffixOf lineHeight.data) = true →
      lineHeight ≠ "normal" →
      parseFloatDec lineHeight.data = some dlh →
      parseFloatDec fontSize.data = some dfs →
      0 < dfs.val →
      TypographyAnalyzer.normalizeLineHeight lineHeight fontSize = toFixed2 (dlh.val / dfs.val)) ∧
    (∀ lineHeight fontSize, lineHeight ≠ "normal" →
      (['p', 'x'].isSuffixOf lineHeight.data) = false →
      TypographyAnalyzer.normalizeLineHeight lineHeight fontSize = lineHeight) ∧
    TypographyAnalyzer.normalizeLineHeight "24px" "16px" = "1.50" ∧
    TypographyAnalyzer.normalizeLineHeight "normal" "16px" = "1.2" := by
  refine ⟨?_, ?_, ?_, ?_, by decide⟩
  · intro fontSize
    unfold TypographyAnalyzer.normalizeLineHeight
    rw [if_pos rfl]
  · intro lineHeight fontSize dlh dfs hsuf hne hlh hfs hpos
    simp only [TypographyAnalyzer.normalizeLineHeight, hsuf, hne, hlh, hfs, if_false,
      if_true, if_pos hpos]
    try simp
  · intro lineHeight fontSize hne hsuf
    simp only [TypographyAnalyzer.normalizeLineHeight, hsuf, hne]
    try simp
  · have hlh : parseFloatDec "24px".data = some ⟨24, 0, 0⟩ := by decide
    have hfs : parseFloatDec "16px".data = some ⟨16, 0, 0⟩ := by decide
    have hv24 : (⟨24, 0, 0⟩ : DecNum).val = 24 := by norm_num [DecNum.val]
    have hv16 : (⟨16, 0, 0⟩ : DecNum).val = 16 := by norm_num [DecNum.val]
    have hpos : 0 < (⟨16, 0, 0⟩ : DecNum).val := by rw [hv16]; norm_num
    simp only [TypographyAnalyzer.normalizeLineHeight, hlh, hfs, if_pos hpos, hv24, hv16]
    have hr : jsRound ((24 : ℚ) / 16 * 100) = 150 := by
      unfold jsRound
      rw [Int.floor_eq_iff]
      constructor <;> norm_num
    simp only [toFixed2, hr]
    decide

/-- C9 witness: instance of the px branch at line-height 24px and font size
16px. -/
theorem normalizeLineHeight_cases_witness :
    TypographyAnalyzer.normalizeLineHeight "24px" "16px" =
      toFixed2 ((⟨24, 0, 0⟩ : DecNum).val / (⟨16, 0, 0⟩ : DecNum).val) :=
  normalizeLineHeight_cases.2.1 "24px" "16px" ⟨24, 0, 0⟩ ⟨16, 0, 0⟩ (by decide) (by decide)
    (by decide) (by decide) (by norm_num [DecNum.val])

end ClaimC9

section PaletteLemmas

/-- Membership in a stable descending insertion. -/
theorem mem_insertDescBy {α : Type} (key : α → ℤ) (e : α) (l : List α) (a : α) :
    a ∈ insertDescBy key e l ↔ a = e ∨ a ∈ l := by
  induction l with
  | nil => simp [insertDescBy]
  | cons x xs ih =>
    unfold insertDescBy
    split_ifs with hx
    · simp [List.mem_cons]
    · simp only [List.mem_cons, ih]
      tauto

/-- Stable descending insertion preserves the descending pairwise order. -/
theorem pairwise_insertDescBy {α : Type} (key : α → ℤ) (e : α) (l : List α)
    (h : l.Pairwise (fun a b => key b ≤ key a)) :
    (insertDescBy key e l).Pairwise (fun a b => key b ≤ key a) := by
  induction l with
  | nil => simp [insertDescBy]
  | cons x xs ih =>
    rw [List.pairwise_cons] at h
    unfold insertDescBy
    split_ifs with hx
    · rw [List.pairwise_cons]
      refine ⟨?_, List.pairwise_cons.mpr h⟩
      intro b hb
      rcases List.mem_cons.mp hb with hb | hb
      · exact hb ▸ le_of_lt hx
      · exact le_trans (h.1 b hb) (le_of_lt hx)
    · rw [List.pairwise_cons]
      refine ⟨?_, ih h.2⟩
      intro b hb
      rcases (mem_insertDescBy key e xs b).mp hb with hb | hb
      · exact hb ▸ not_lt.mp hx
      · exact h.1 b hb

/-- Membership in the stable descending sort. -/
theorem mem_sortDescBy {α : Type} (key : α → ℤ) (l : List α) (a : α) :
    a ∈ sortDescBy key l ↔ a ∈ l := by
  have main : ∀ (l acc : List α),
      (a ∈ l.foldl (fun acc e => insertDescBy key e acc) acc ↔ a ∈ acc ∨ a ∈ l) := by
    intro l
    induction l with
    | nil => intro acc; simp
    | cons x xs ih =>
      intro acc
      rw [List.foldl, ih (insertDescBy key x acc), mem_insertDescBy]
      simp only [List.mem_cons]
      tauto
  rw [sortDescBy, main l []]
  simp

/-- The stable descending sort is pairwise descending. -/
theorem pairwise_sortDescBy {α : Type} (key : α → ℤ) (l : List α) :
    (sortDescBy key l).Pairwise (fun a b => key b ≤ key a) := by
  have main : ∀ (l acc : List α), acc.Pairwise (fun a b => key b ≤ key a) →
      (l.foldl (fun acc e => insertDescBy key e acc) acc).Pairwise
        (fun a b => key b ≤ key a) := by
    intro l
    induction l with
    | nil => intro acc h; exact h
    | cons x xs ih =>
      intro acc h
      exact ih (insertDescBy key x acc) (pairwise_insertDescBy key x acc h)
  exact main l [] List.Pairwise.nil

/-- The first state component accumulates: what `emitEntries` appends is
independent of the records already emitted. -/
theorem emitEntries_fst_append (label : String) (es : List ColorAnalyzer.ColorEntry) :
    ∀ (res : List ColorAnalyzer.PaletteItem) (seen : List String),
      (ColorAnalyzer.emitEntries label es (res, seen)).1 =
        res ++ (ColorAnalyzer.emitEntries label es ([], seen)).1 := by
  induction es with
  | nil => intro res seen; simp [ColorAnalyzer.emitEntries]
  | cons e es ih =>
    intro res seen
    unfold ColorAnalyzer.emitEntries
    split_ifs with h
    · exact ih res seen
    · simp only [List.nil_append]
      rw [ih (res ++ [ColorAnalyzer.mkPaletteItem label e]) (e.hex :: seen),
        ih [ColorAnalyzer.mkPaletteItem label e] (e.hex :: seen)]
      simp

/-- The seen set produced by `emitEntries` does not depend on the records
already emitted. -/
theorem emitEntries_snd_free (label : String) (es : List ColorAnalyzer.ColorEntry) :
    ∀ (res : List ColorAnalyzer.PaletteItem) (seen : List String),
      (ColorAnalyzer.emitEntries label es (res, seen)).2 =
        (ColorAnalyzer.emitEntries label es ([], seen)).2 := by
  induction es with
  | nil => intro res seen; rfl
  | cons e es ih =>
    intro res seen
    unfold ColorAnalyzer.emitEntries
    split_ifs with h
    · exact ih res seen
    · simp only [List.nil_append]
      rw [ih (res ++ [ColorAnalyzer.mkPaletteItem label e]) (e.hex :: seen),
        ih [ColorAnalyzer.mkPaletteItem label e] (e.hex :: seen)]

/-- The seen set only grows. -/
theorem emitEntries_seen_mono (label : String) (es : List ColorAnalyzer.ColorEntry) :
    ∀ (res : List ColorAnalyzer.PaletteItem) (seen : List String) (x : String), x ∈ seen →
      x ∈ (ColorAnalyzer.emitEntries label es (res, seen)).2 := by
  induction es with
  | nil => intro res seen x hx; exact hx
  | cons e es ih =>
    intro res seen x hx
    unfold ColorAnalyzer.emitEntries
    split_ifs with h
    · exact ih res seen x hx
    · exact ih (res ++ [ColorAnalyzer.mkPaletteItem label e]) (e.hex :: seen) x
        (List.mem_cons_of_mem _ hx)

/-- After the walk every processed hex is in the seen set. -/
theorem emitEntries_seen_keys (label : String) (es : List ColorAnalyzer.ColorEntry) :
    ∀ (res : List ColorAnalyzer.PaletteItem) (seen : List String) (e : ColorAnalyzer.ColorEntry),
      e ∈ es → e.hex ∈ (ColorAnalyzer.emitEntries label es (res, seen)).2 := by
  induction es with
  | nil => intro res seen e he; cases he
  | cons x xs ih =>
    intro res seen e he
    unfold ColorAnalyzer.emitEntries
    rcases List.mem_cons.mp he with he | he
    · split_ifs with h
      · exact emitEntries_seen_mono label xs res seen e.hex (he ▸ h)
      · exact emitEntries_seen_mono label xs _ _ e.hex (he ▸ List.mem_cons_self x.hex seen)
    · split_ifs with h
      · exact ih res seen e he
      · exact ih _ _ e he

/-- Every record appended by the walk carries the walked category label, a
hex that was not yet seen, and a hex that is seen afterwards. -/
theorem emitEntries_new_items (label : String) (es : List ColorAnalyzer.ColorEntry) :
    ∀ (seen : List String) (i : ColorAnalyzer.PaletteItem),
      i ∈ (ColorAnalyzer.emitEntries label es ([], seen)).1 →
        i.category = label ∧ i.hex ∉ seen ∧
          i.hex ∈ (ColorAnalyzer.emitEntries label es ([], seen)).2 := by
  induction es with
  | nil => intro seen i hi; cases hi
  | cons e es ih =>
    intro seen i hi
    unfold ColorAnalyzer.emitEntries at hi ⊢
    split_ifs at hi ⊢ with h
    · exact ih seen i hi
    · simp only [List.nil_append] at hi ⊢
      rw [emitEntries_fst_append label es [ColorAnalyzer.mkPaletteItem label e] (e.hex :: seen)]
        at hi
      rw [emitEntries_snd_free label es [ColorAnalyzer.mkPaletteItem label e] (e.hex :: seen)]
      rcases List.mem_append.mp hi with hi | hi
    <;> first
      | · rw [List.mem_singleton] at hi
          subst hi
          refine ⟨rfl, h, ?_⟩
          exact emitEntries_seen_mono label es [] (e.hex :: seen) e.hex
            (List.mem_cons_self e.hex seen)
      | · obtain ⟨hcat, hmem, hseen⟩ := ih (e.hex :: seen) i hi
          exact ⟨hcat, fun hx => hmem (List.mem_cons_of_mem _ hx), hseen⟩

end PaletteLemmas

section PaletteLemmas2

/-- The hexes of the records appended by one walk are distinct. -/
theorem emitEntries_new_nodup (label : String) (es : List ColorAnalyzer.ColorEntry) :
    ∀ (seen : List String),
      ((ColorAnalyzer.emitEntries label es ([], seen)).1.map (fun i => i.hex)).Nodup := by
  induction es with
  | nil => intro seen; simp [ColorAnalyzer.emitEntries]
  | cons e es ih =>
    intro seen
    unfold ColorAnalyzer.emitEntries
    split_ifs with h
    · exact ih seen
    · simp only [List.nil_append]
      rw [emitEntries_fst_append label es [ColorAnalyzer.mkPaletteItem label e] (e.hex :: seen)]
      simp only [List.singleton_append, List.map_cons, List.nodup_cons]
      refine ⟨?_, ih (e.hex :: seen)⟩
      intro hmem
      rcases List.mem_map.mp hmem with ⟨i, hi, hhex⟩
      obtain ⟨_, hnot, _⟩ := emitEntries_new_items label es (e.hex :: seen) i hi
      exact hnot (hhex ▸ List.mem_cons_self _ _)

/-- The records appended by one walk form a sublist of the walked entries
mapped to records. -/
theorem emitEntries_new_sublist (label : String) (es : List ColorAnalyzer.ColorEntry) :
    ∀ (seen : List String),
      ((ColorAnalyzer.emitEntries label es ([], seen)).1).Sublist
        (es.map (ColorAnalyzer.mkPaletteItem label)) := by
  induction es with
  | nil => intro seen; simp [ColorAnalyzer.emitEntries]
  | cons e es ih =>
    intro seen
    unfold ColorAnalyzer.emitEntries
    split_ifs with h
    · exact (ih seen).cons (ColorAnalyzer.mkPaletteItem label e)
    · simp only [List.nil_append]
      rw [emitEntries_fst_append label es [ColorAnalyzer.mkPaletteItem label e] (e.hex :: seen)]
      simp only [List.singleton_append, List.map_cons]
      exact (ih (e.hex :: seen)).cons₂ (ColorAnalyzer.mkPaletteItem label e)

/-- One category step preserves the palette invariant. -/
theorem emitCategory_inv (st : List ColorAnalyzer.PaletteItem × List String) (label : String)
    (m : ColorAnalyzer.ColorMap) (h : PaletteInv st) :
    PaletteInv (ColorAnalyzer.emitCategory st label m) := by
  obtain ⟨res, seen⟩ := st
  obtain ⟨hnd, hsub⟩ := h
  unfold ColorAnalyzer.emitCategory
  constructor
  · rw [emitEntries_fst_append]
    rw [List.map_append, List.nodup_append]
    refine ⟨hnd, emitEntries_new_nodup label _ seen, ?_⟩
    rw [List.disjoint_left]
    intro a ha hb
    rcases List.mem_map.mp ha with ⟨i, hi, hhex⟩
    rcases List.mem_map.mp hb with ⟨j, hj, hhexj⟩
    obtain ⟨_, hnot, _⟩ := emitEntries_new_items label _ seen j hj
    exact hnot (hhexj ▸ hhex ▸ hsub i hi)
  · intro i hi
    rw [emitEntries_fst_append] at hi
    rcases List.mem_append.mp hi with hi | hi
    · exact emitEntries_seen_mono label _ res seen i.hex (hsub i hi)
    · obtain ⟨_, _, hseen⟩ := emitEntries_new_items label _ seen i hi
      rw [emitEntries_snd_free]
      exact hseen

/-- A record emitted with a hex that was already seen before a category step
was already emitted before that step. -/
theorem emitCategory_mem_of_seen (st : List ColorAnalyzer.PaletteItem × List String)
    (label : String) (m : ColorAnalyzer.ColorMap) (i : ColorAnalyzer.PaletteItem)
    (hi : i ∈ (ColorAnalyzer.emitCategory st label m).1) (hseen : i.hex ∈ st.2) : i ∈ st.1 := by
  obtain ⟨res, seen⟩ := st
  unfold ColorAnalyzer.emitCategory at hi
  rw [emitEntries_fst_append] at hi
  rcases List.mem_append.mp hi with hi | hi
  · exact hi
  · obtain ⟨_, hnot, _⟩ := emitEntries_new_items label _ seen i hi
    exact absurd hseen hnot

/-- The seen set grows across a category step. -/
theorem emitCategory_seen_mono (st : List ColorAnalyzer.PaletteItem × List String)
    (label : String) (m : ColorAnalyzer.ColorMap) (x : String) (hx : x ∈ st.2) :
    x ∈ (ColorAnalyzer.emitCategory st label m).2 := by
  obtain ⟨res, seen⟩ := st
  exact emitEntries_seen_mono label _ res seen x hx

/-- After a category step every hex of that category map is seen. -/
theorem emitCategory_seen_keys (st : List ColorAnalyzer.PaletteItem × List String)
    (label : String) (m : ColorAnalyzer.ColorMap) (x : String)
    (hx : x ∈ m.map (fun e => e.hex)) : x ∈ (ColorAnalyzer.emitCategory st label m).2 := by
  obtain ⟨res, seen⟩ := st
  rcases List.mem_map.mp hx with ⟨e, he, hhex⟩
  exact hhex ▸ emitEntries_seen_keys label _ res seen e
    ((mem_sortDescBy _ m e).mpr he)

/-- Every record present after a category step was there before or carries
the category label of the step. -/
theorem emitCategory_mem_cases (st : List ColorAnalyzer.PaletteItem × List String)
    (label : String) (m : ColorAnalyzer.ColorMap) (i : ColorAnalyzer.PaletteItem)
    (hi : i ∈ (ColorAnalyzer.emitCategory st label m).1) : i ∈ st.1 ∨ i.category = label := by
  obtain ⟨res, seen⟩ := st
  unfold ColorAnalyzer.emitCategory at hi
  rw [emitEntries_fst_append] at hi
  rcases List.mem_append.mp hi with hi | hi
  · exact Or.inl hi
  · exact Or.inr (emitEntries_new_items label _ seen i hi).1

end PaletteLemmas2

section ClaimC1

/-- C1: the palette built by `buildColorPalette` contains no hex twice, and a
hex present in a higher-priority category map is only ever emitted under that
or a yet higher category: a record whose hex occurs in the primary map is
tagged Primary; one whose hex occurs in the accent map is tagged Primary or
Accent; and so on down the fixed priority order, so a colour qualifying for
both Primary and Background appears tagged Primary only. -/
theorem buildColorPalette_dedup_priority (colors : ColorAnalyzer.Colors) :
    ((ColorAnalyzer.buildColorPalette colors).map (fun i => i.hex)).Nodup ∧
    ∀ i ∈ ColorAnalyzer.buildColorPalette colors,
      (i.hex ∈ colors.primary.map (fun e => e.hex) → i.category = "Primary") ∧
      (i.hex ∈ colors.accent.map (fun e => e.hex) →
        i.category = "Primary" ∨ i.category = "Accent") ∧
      (i.hex ∈ colors.background.map (fun e => e.hex) →
        i.category = "Primary" ∨ i.category = "Accent" ∨ i.category = "Background") ∧
      (i.hex ∈ colors.foreground.map (fun e => e.hex) →
        i.category = "Primary" ∨ i.category = "Accent" ∨ i.category = "Background" ∨
          i.category = "Foreground") := by
  set st1 := ColorAnalyzer.emitCategory ([], []) "Primary" colors.primary with hst1
  set st2 := ColorAnalyzer.emitCategory st1 "Accent" colors.accent with hst2
  set st3 := ColorAnalyzer.emitCategory st2 "Background" colors.background with hst3
  set st4 := ColorAnalyzer.emitCategory st3 "Foreground" colors.foreground with hst4
  set st5 := ColorAnalyzer.emitCategory st4 "Border" colors.border with hst5
  have hbuild : ColorAnalyzer.buildColorPalette colors = st5.1.take 20 := rfl
  have hinv0 : PaletteInv ([], []) := ⟨List.Pairwise.nil, fun i hi => absurd hi (by simp)⟩
  have hinv5 : PaletteInv st5 :=
    emitCategory_inv _ _ _ (emitCategory_inv _ _ _ (emitCategory_inv _ _ _
      (emitCategory_inv _ _ _ (emitCategory_inv _ _ _ hinv0))))
  constructor
  · rw [hbuild]
    exact List.Nodup.sublist ((List.take_sublist 20 st5.1).map (fun i => i.hex)) hinv5.1
  · intro i hi
    rw [hbuild] at hi
    have hifull : i ∈ st5.1 := List.take_subset 20 st5.1 hi
    have cases1 : i ∈ st1.1 → i.category = "Primary" := by
      intro h1
      rcases emitCategory_mem_cases ([], []) "Primary" colors.primary i h1 with h | h
      · cases h
      · exact h
    have cases2 : i ∈ st2.1 → i.category = "Primary" ∨ i.category = "Accent" := by
      intro h2
      rcases emitCategory_mem_cases st1 "Accent" colors.accent i h2 with h | h
      · exact Or.inl (cases1 h)
      · exact Or.inr h
    have cases3 : i ∈ st3.1 →
        i.category = "Primary" ∨ i.category = "Accent" ∨ i.category = "Background" := by
      intro h3
      rcases emitCategory_mem_cases st2 "Background" colors.background i h3 with h | h
      · rcases cases2 h with h | h
        · exact Or.inl h
        · exact Or.inr (Or.inl h)
      · exact Or.inr (Or.inr h)
    have cases4 : i ∈ st4.1 →
        i.category = "Primary" ∨ i.category = "Accent" ∨ i.category = "Background" ∨
          i.category = "Foreground" := by
      intro h4
      rcases emitCategory_mem_cases st3 "Foreground" colors.foreground i h4 with h | h
      · rcases cases3 h with h | h | h
        · exact Or.inl h
        · exact Or.inr (Or.inl h)
        · exact Or.inr (Or.inr (Or.inl h))
      · exact Or.inr (Or.inr (Or.inr h))
    refine ⟨?_, ?_, ?_, ?_⟩
    · intro hkey
      have s1 : i.hex ∈ st1.2 :=
        emitCategory_seen_keys ([], []) "Primary" colors.primary i.hex hkey
      have s2 : i.hex ∈ st2.2 := emitCategory_seen_mono st1 "Accent" colors.accent i.hex s1
      have s3 : i.hex ∈ st3.2 :=
        emitCategory_seen_mono st2 "Background" colors.background i.hex s2
      have s4 : i.hex ∈ st4.2 :=
        emitCategory_seen_mono st3 "Foreground" colors.foreground i.hex s3
      have h4 : i ∈ st4.1 := emitCategory_mem_of_seen st4 "Border" colors.border i hifull s4
      have h3 : i ∈ st3.1 := emitCategory_mem_of_seen st3 "Foreground" colors.foreground i h4 s3
      have h2 : i ∈ st2.1 := emitCategory_mem_of_seen st2 "Background" colors.background i h3 s2
      have h1 : i ∈ st1.1 := emitCategory_mem_of_seen st1 "Accent" colors.accent i h2 s1
      exact cases1 h1
    · intro hkey
      have s2 : i.hex ∈ st2.2 := emitCategory_seen_keys st1 "Accent" colors.accent i.hex hkey
      have s3 : i.hex ∈ st3.2 :=
        emitCategory_seen_mono st2 "Background" colors.background i.hex s2
      have s4 : i.hex ∈ st4.2 :=
        emitCategory_seen_mono st3 "Foreground" colors.foreground i.hex s3
      have h4 : i ∈ st4.1 := emitCategory_mem_of_seen st4 "Border" colors.border i hifull s4
      have h3 : i ∈ st3.1 := emitCategory_mem_of_seen st3 "Foreground" colors.foreground i h4 s3
      have h2 : i ∈ st2.1 := emitCategory_mem_of_seen st2 "Background" colors.background i h3 s2
      exact cases2 h2
    · intro hkey
      have s3 : i.hex ∈ st3.2 :=
        emitCategory_seen_keys st2 "Background" colors.background i.hex hkey
      have s4 : i.hex ∈ st4.2 :=
        emitCategory_seen_mono st3 "Foreground" colors.foreground i.hex s3
      have h4 : i ∈ st4.1 := emitCategory_mem_of_seen st4 "Border" colors.border i hifull s4
      have h3 : i ∈ st3.1 := emitCategory_mem_of_seen st3 "Foreground" colors.foreground i h4 s3
      exact cases3 h3
    · intro hkey
      have s4 : i.hex ∈ st4.2 :=
        emitCategory_seen_keys st3 "Foreground" colors.foreground i.hex hkey
      have h4 : i ∈ st4.1 := emitCategory_mem_of_seen st4 "Border" colors.border i hifull s4
      exact cases4 h4

/-- C1 witness: for the witness maps the palette is the single record tagged
Primary, its dedup invariant holds, and the priority theorem instantiated at
that record yields the Primary tag. -/
theorem buildColorPalette_dedup_priority_witness :
    ((ColorAnalyzer.buildColorPalette paletteWitnessColors).map (fun i => i.hex)).Nodup ∧
      (⟨"#AA0000", "Primary", 2, "button"⟩ : ColorAnalyzer.PaletteItem).category = "Primary" :=
  ⟨(buildColorPalette_dedup_priority paletteWitnessColors).1,
    (((buildColorPalette_dedup_priority paletteWitnessColors).2
      ⟨"#AA0000", "Primary", 2, "button"⟩ (by decide)).1 (by decide))⟩

end ClaimC1

section ClaimC6

/-- One category step preserves the pairwise output order, given that every
already emitted record ranks at or before the incoming label and carries a
different label. -/
theorem emitCategory_pairwise_rel (st : List ColorAnalyzer.PaletteItem × List String)
    (label : String) (m : ColorAnalyzer.ColorMap)
    (hpw : st.1.Pairwise PaletteRel)
    (hcross : ∀ a ∈ st.1, categoryRank a.category ≤ categoryRank label ∧ a.category ≠ label) :
    (ColorAnalyzer.emitCategory st label m).1.Pairwise PaletteRel := by
  obtain ⟨res, seen⟩ := st
  unfold ColorAnalyzer.emitCategory
  rw [emitEntries_fst_append, List.pairwise_append]
  have hlab : ∀ i ∈ (ColorAnalyzer.emitEntries label (ColorAnalyzer.sortByWeightDesc m)
      ([], seen)).1, i.category = label :=
    fun i hi => (emitEntries_new_items label _ seen i hi).1
  refine ⟨hpw, ?_, ?_⟩
  · have hsorted : ((ColorAnalyzer.emitEntries label (ColorAnalyzer.sortByWeightDesc m)
        ([], seen)).1).Pairwise (fun a b => b.weight ≤ a.weight) := by
      have hm : ((ColorAnalyzer.sortByWeightDesc m).map
          (ColorAnalyzer.mkPaletteItem label)).Pairwise (fun a b => b.weight ≤ a.weight) := by
        rw [List.pairwise_map]
        exact (pairwise_sortDescBy (fun e => (e.weight : ℤ)) m).imp
          (fun hab => by exact_mod_cast hab)
      exact List.Pairwise.sublist (emitEntries_new_sublist label _ seen) hm
    have hrank : ((ColorAnalyzer.emitEntries label (ColorAnalyzer.sortByWeightDesc m)
        ([], seen)).1).Pairwise
          (fun a b => categoryRank a.category ≤ categoryRank b.category) := by
      apply List.pairwise_of_forall_mem_list
      intro a ha b hb
      rw [hlab a ha, hlab b hb]
    exact (hrank.and hsorted).imp (fun hab => ⟨hab.1, fun _ => hab.2⟩)
  · intro a ha b hb
    refine ⟨?_, ?_⟩
    · rw [hlab b hb]
      exact (hcross a ha).1
    · intro hcat
      exact absurd (hcat.trans (hlab b hb)) (hcross a ha).2

/-- C6: `buildColorPalette` emits at most twenty records, category labels
appear in the fixed order Primary, Accent, Background, Foreground, Border,
and within one category weights are nonincreasing. -/
theorem buildColorPalette_order_sorted_capped (colors : ColorAnalyzer.Colors) :
    (ColorAnalyzer.buildColorPalette colors).length ≤ 20 ∧
    (ColorAnalyzer.buildColorPalette colors).Pairwise
      (fun a b => categoryRank a.category ≤ categoryRank b.category) ∧
    (ColorAnalyzer.buildColorPalette colors).Pairwise
      (fun a b => a.category = b.category → b.weight ≤ a.weight) := by
  set st1 := ColorAnalyzer.emitCategory ([], []) "Primary" colors.primary with hst1
  set st2 := ColorAnalyzer.emitCategory st1 "Accent" colors.accent with hst2
  set st3 := ColorAnalyzer.emitCategory st2 "Background" colors.background with hst3
  set st4 := ColorAnalyzer.emitCategory st3 "Foreground" colors.foreground with hst4
  set st5 := ColorAnalyzer.emitCategory st4 "Border" colors.border with hst5
  have hbuild : ColorAnalyzer.buildColorPalette colors = st5.1.take 20 := rfl
  have cases1 : ∀ i ∈ st1.1, i.category = "Primary" := by
    intro i h1
    rcases emitCategory_mem_cases ([], []) "Primary" colors.primary i h1 with h | h
    · cases h
    · exact h
  have cases2 : ∀ i ∈ st2.1, i.category = "Primary" ∨ i.category = "Accent" := by
    intro i h2
    rcases emitCategory_mem_cases st1 "Accent" colors.accent i h2 with h | h
    · exact Or.inl (cases1 i h)
    · exact Or.inr h
  have cases3 : ∀ i ∈ st3.1,
      i.category = "Primary" ∨ i.category = "Accent" ∨ i.category = "Background" := by
    intro i h3
    rcases emitCategory_mem_cases st2 "Background" colors.background i h3 with h | h
    · rcases cases2 i h with h | h
      · exact Or.inl h
      · exact Or.inr (Or.inl h)
    · exact Or.inr (Or.inr h)
  have cases4 : ∀ i ∈ st4.1,
      i.category = "Primary" ∨ i.category = "Accent" ∨ i.category = "Background" ∨
        i.category = "Foreground" := by
    intro i h4
    rcases emitCategory_mem_cases st3 "Foreground" colors.foreground i h4 with h | h
    · rcases cases3 i h with h | h | h
      · exact Or.inl h
      · exact Or.inr (Or.inl h)
      · exact Or.inr (Or.inr (Or.inl h))
    · exact Or.inr (Or.inr (Or.inr h))
  have pw1 : st1.1.Pairwise PaletteRel := by
    apply emitCategory_pairwise_rel ([], []) "Primary" colors.primary List.Pairwise.nil
    intro a ha
    cases ha
  have pw2 : st2.1.Pairwise PaletteRel := by
    apply emitCategory_pairwise_rel st1 "Accent" colors.accent pw1
    intro a ha
    rw [cases1 a ha]
    refine ⟨by decide, by decide⟩
  have pw3 : st3.1.Pairwise PaletteRel := by
    apply emitCategory_pairwise_rel st2 "Background" colors.background pw2
    intro a ha
    rcases cases2 a ha with h | h <;> rw [h] <;> exact ⟨by decide, by decide⟩
  have pw4 : st4.1.Pairwise PaletteRel := by
    apply emitCategory_pairwise_rel st3 "Foreground" colors.foreground pw3
    intro a ha
    rcases cases3 a ha with h | h | h <;> rw [h] <;> exact ⟨by decide, by decide⟩
  have pw5 : st5.1.Pairwise PaletteRel := by
    apply emitCategory_pairwise_rel st4 "Border" colors.border pw4
    intro a ha
    rcases cases4 a ha with h | h | h | h <;> rw [h] <;> exact ⟨by decide, by decide⟩
  have pwtake : (st5.1.take 20).Pairwise PaletteRel :=
    List.Pairwise.sublist (List.take_sublist 20 st5.1) pw5
  rw [hbuild]
  refine ⟨?_, pwtake.imp (fun hab => hab.1), pwtake.imp (fun hab => hab.2)⟩
  rw [List.length_take]
  exact min_le_left 20 st5.1.length

/-- C6 witness: instance of the cap and ordering theorem at the witness
maps. -/
theorem buildColorPalette_order_sorted_capped_witness :
    (ColorAnalyzer.buildColorPalette paletteOrderWitnessColors).length ≤ 20 ∧
    (ColorAnalyzer.buildColorPalette paletteOrderWitnessColors).Pairwise
      (fun a b => categoryRank a.category ≤ categoryRank b.category) ∧
    (ColorAnalyzer.buildColorPalette paletteOrderWitnessColors).Pairwise
      (fun a b => a.category = b.category → b.weight ≤ a.weight) :=
  buildColorPalette_order_sorted_capped paletteOrderWitnessColors

end ClaimC6

section ClaimC7

/-- A name absent from the map has count 0. -/
theorem lookupCount_eq_zero (m : List (String × ℕ)) (name : String)
    (h : ∀ p ∈ m, p.1 ≠ name) : lookupCount m name = 0 := by
  induction m with
  | nil => rfl
  | cons p ps ih =>
    unfold lookupCount
    rw [if_neg (h p (List.mem_cons_self p ps))]
    exact ih (fun q hq => h q (List.mem_cons_of_mem p hq))

/-- Appending a fresh entry after an absent name. -/
theorem lookupCount_append_absent (m : List (String × ℕ)) (x : String × ℕ) (name : String)
    (h : ∀ p ∈ m, p.1 ≠ name) :
    lookupCount (m ++ [x]) name = if x.1 = name then x.2 else 0 := by
  induction m with
  | nil => rfl
  | cons p ps ih =>
    simp only [List.cons_append]
    unfold lookupCount
    rw [if_neg (h p (List.mem_cons_self p ps))]
    exact ih (fun q hq => h q (List.mem_cons_of_mem p hq))

/-- Appending an entry of a different name leaves a count unchanged. -/
theorem lookupCount_append_ne (m : List (String × ℕ)) (x : String × ℕ) (name : String)
    (h : x.1 ≠ name) : lookupCount (m ++ [x]) name = lookupCount m name := by
  induction m with
  | nil =>
    simp only [List.nil_append]
    unfold lookupCount
    rw [if_neg h]
    rfl
  | cons p ps ih =>
    simp only [List.cons_append]
    unfold lookupCount
    split_ifs with hp
    · rfl
    · exact ih

/-- The increment map step does not touch counts of other names. -/
theorem lookupCount_map_upd_ne (m : List (String × ℕ)) (f name : String) (h : name ≠ f) :
    lookupCount (m.map (fun p => if p.1 = f then (p.1, p.2 + 1) else p)) name =
      lookupCount m name := by
  induction m with
  | nil => rfl
  | cons p ps ih =>
    simp only [List.map_cons]
    unfold lookupCount
    by_cases hpf : p.1 = f
    · rw [if_pos hpf]
      simp only []
      rw [if_neg (by rw [hpf]; exact fun hx => h hx.symm), if_neg (fun hx => h (hpf ▸ hx).symm)]
      exact ih
    · rw [if_neg hpf]
      split_ifs with hp
      · rfl
      · exact ih

/-- The increment map step adds one to the count of a present name. -/
theorem lookupCount_map_upd_eq (m : List (String × ℕ)) (f : String)
    (hp : (m.find? (fun p => p.1 = f)).isSome = true) :
    lookupCount (m.map (fun p => if p.1 = f then (p.1, p.2 + 1) else p)) f =
      lookupCount m f + 1 := by
  induction m with
  | nil => simp at hp
  | cons p ps ih =>
    simp only [List.map_cons]
    unfold lookupCount
    by_cases hpf : p.1 = f
    · rw [if_pos hpf]
      simp only []
      rw [if_pos hpf, if_pos hpf]
    · rw [if_neg hpf, if_neg hpf, if_neg hpf]
      apply ih
      rw [List.find?_cons] at hp
      have : (decide (p.1 = f)) = false := by simp [hpf]
      rw [this] at hp
      exact hp

/-- Count evolution under one `bumpCount`. -/
theorem lookupCount_bump (m : List (String × ℕ)) (f name : String) :
    lookupCount (TypographyAnalyzer.bumpCount m f) name =
      lookupCount m name + (if name = f then 1 else 0) := by
  unfold TypographyAnalyzer.bumpCount
  by_cases hp : (m.find? (fun p => p.1 = f)).isSome = true
  · rw [if_pos hp]
    by_cases hnf : name = f
    · subst hnf
      rw [if_pos rfl]
      exact lookupCount_map_upd_eq m name hp
    · rw [if_neg hnf, lookupCount_map_upd_ne m f name hnf]
      simp
  · rw [if_neg hp]
    have habs : ∀ p ∈ m, p.1 ≠ f := by
      intro p hpm
      have : m.find? (fun p => p.1 = f) = none := by
        cases hfind : m.find? (fun p => p.1 = f) with
        | none => rfl
        | some v => rw [hfind] at hp; simp at hp
      have := List.find?_eq_none.mp this p hpm
      simpa using this
    by_cases hnf : name = f
    · subst hnf
      rw [if_pos rfl, lookupCount_append_absent m (name, 1) name
        (fun p hpm => habs p hpm), lookupCount_eq_zero m name (fun p hpm => habs p hpm)]
      simp
    · rw [if_neg hnf, lookupCount_append_ne m (f, 1) name (fun hx => hnf (hx.symm))]
      simp

/-- The first components of the map survive one `bumpCount` with no
duplicates. -/
theorem bumpCount_nodup (m : List (String × ℕ)) (f : String)
    (h : (m.map Prod.fst).Nodup) :
    ((TypographyAnalyzer.bumpCount m f).map Prod.fst).Nodup := by
  unfold TypographyAnalyzer.bumpCount
  by_cases hp : (m.find? (fun p => p.1 = f)).isSome = true
  · rw [if_pos hp, List.map_map]
    have : m.map (Prod.fst ∘ fun p => if p.1 = f then (p.1, p.2 + 1) else p) =
        m.map Prod.fst := by
      apply List.map_congr_left
      intro p _
      by_cases hpf : p.1 = f
      · simp [hpf]
      · simp [hpf]
    rw [this]
    exact h
  · rw [if_neg hp, List.map_append, List.nodup_append]
    refine ⟨h, by simp, ?_⟩
    rw [List.disjoint_left]
    intro a ha hb
    simp only [List.map_cons, List.map_nil, List.mem_singleton] at hb
    rcases List.mem_map.mp ha with ⟨p, hpm, hpf⟩
    have hnone : m.find? (fun p => p.1 = f) = none := by
      cases hfind : m.find? (fun p => p.1 = f) with
      | none => rfl
      | some v => rw [hfind] at hp; simp at hp
    have hne := List.find?_eq_none.mp hnone p hpm
    simp only [decide_eq_true_eq] at hne
    exact hne (hpf.trans hb)

/-- One scan step in closed form. -/
theorem fontScanStep_eq (acc : List (String × ℕ) × ℕ) (e : TypographyAnalyzer.TElem) :
    TypographyAnalyzer.fontScanStep acc e =
      if fontQualifies e then (TypographyAnalyzer.bumpCount acc.1 (resolvedFont e), acc.2 + 1)
      else acc := by
  unfold TypographyAnalyzer.fontScanStep fontQualifies resolvedFont
  cases ht : TypographyAnalyzer.hasTextContent e
  · simp
  · cases hc : TypographyAnalyzer.cleanFontFamily e.fontFamily with
    | none => simp [hc]
    | some f =>
      by_cases hf : f = ""
      · subst hf
        simp [hc]
      · simp [hc, hf]

/-- Invariant of the font census fold: the running total counts qualifying
elements, each name count is the number of qualifying elements resolving to
that name, and name keys stay distinct. -/
theorem fontScan_inv (l : List TypographyAnalyzer.TElem) :
    ∀ (m : List (String × ℕ)) (t : ℕ),
      ((l.foldl TypographyAnalyzer.fontScanStep (m, t)).2 =
        t + (l.filter fontQualifies).length) ∧
      (∀ name, lookupCount (l.foldl TypographyAnalyzer.fontScanStep (m, t)).1 name =
        lookupCount m name +
          (l.filter (fun e => fontQualifies e && decide (resolvedFont e = name))).length) ∧
      ((m.map Prod.fst).Nodup →
        (((l.foldl TypographyAnalyzer.fontScanStep (m, t)).1).map Prod.fst).Nodup) := by
  induction l with
  | nil =>
    intro m t
    exact ⟨by simp, fun name => by simp, fun h => h⟩
  | cons e es ih =>
    intro m t
    rw [List.foldl, fontScanStep_eq]
    by_cases hq : fontQualifies e = true
    · rw [if_pos hq]
      obtain ⟨iht, ihc, ihn⟩ :=
        ih (TypographyAnalyzer.bumpCount m (resolvedFont e)) (t + 1)
      refine ⟨?_, ?_, ?_⟩
      · rw [iht, List.filter_cons, if_pos hq]
        simp only [List.length_cons]
        omega
      · intro name
        rw [ihc name, lookupCount_bump, List.filter_cons]
        by_cases hn : resolvedFont e = name
        · have hfilter : (fontQualifies e && decide (resolvedFont e = name)) = true := by
            rw [hq, hn]
            simp
          have hbif : name = resolvedFont e := hn.symm
          rw [if_pos hfilter, if_pos hbif]
          simp only [List.length_cons]
          omega
        · have hfilter : ¬((fontQualifies e && decide (resolvedFont e = name)) = true) := by
            simp [hn]
          have hbif : ¬(name = resolvedFont e) := fun hx => hn hx.symm
          rw [if_neg hfilter, if_neg hbif]
          omega
      · intro hnd
        exact ihn (bumpCount_nodup m (resolvedFont e) hnd)
    · rw [if_neg hq]
      obtain ⟨iht, ihc, ihn⟩ := ih m t
      refine ⟨?_, ?_, ?_⟩
      · rw [iht, List.filter_cons, if_neg hq]
      · intro name
        rw [ihc name, List.filter_cons, if_neg (by simp [hq])]
      · exact ihn

/-- With distinct keys, the count stored at an entry is its lookup count. -/
theorem mem_lookupCount (m : List (String × ℕ)) (p : String × ℕ)
    (hnd : (m.map Prod.fst).Nodup) (hp : p ∈ m) : p.2 = lookupCount m p.1 := by
  induction m with
  | nil => cases hp
  | cons q qs ih =>
    rw [List.map_cons, List.nodup_cons] at hnd
    rcases List.mem_cons.mp hp with h | h
    · subst h
      unfold lookupCount
      rw [if_pos rfl]
    · have hq : q.1 ≠ p.1 := by
        intro hx
        exact hnd.1 (hx.symm ▸ List.mem_map.mpr ⟨p, h, rfl⟩)
      unfold lookupCount
      rw [if_neg hq]
      exact ih hnd.2 h

/-- C7: `analyzeFontFamilies` returns at most ten records, sorted by
nonincreasing usage, every record has usage at least one percent, and each
usage is the qualifying-element count of the resolved family over the total
qualifying-element count, times 100, rounded to the nearest integer. -/
theorem analyzeFontFamilies_usage_spec (elements : List TypographyAnalyzer.TElem) :
    (TypographyAnalyzer.analyzeFontFamilies elements).length ≤ 10 ∧
    (TypographyAnalyzer.analyzeFontFamilies elements).Pairwise
      (fun a b => b.usage ≤ a.usage) ∧
    ∀ r ∈ TypographyAnalyzer.analyzeFontFamilies elements,
      1 ≤ r.usage ∧
        r.usage = jsRound
          ((((elements.filter (fun e =>
              fontQualifies e && decide (resolvedFont e = r.name))).length : ℚ) /
            ((elements.filter fontQualifies).length : ℚ)) * 100) := by
  obtain ⟨hTot, hCnt, hNd⟩ := fontScan_inv elements [] 0
  set scan := elements.foldl TypographyAnalyzer.fontScanStep ([], 0) with hscan
  have hout : TypographyAnalyzer.analyzeFontFamilies elements =
      (TypographyAnalyzer.sortByUsageDesc
        ((scan.1.map (fun p =>
          TypographyAnalyzer.FontRecord.mk p.1 (jsRound ((p.2 : ℚ) / (scan.2 : ℚ) * 100)))).filter
          (fun f => 1 ≤ f.usage))).take 10 := rfl
  refine ⟨?_, ?_, ?_⟩
  · rw [hout, List.length_take]
    exact min_le_left _ _
  · rw [hout]
    exact List.Pairwise.sublist (List.take_sublist 10 _)
      (pairwise_sortDescBy TypographyAnalyzer.FontRecord.usage _)
  · intro r hr
    rw [hout] at hr
    have hr2 := List.take_subset _ _ hr
    have hr3 := (mem_sortDescBy TypographyAnalyzer.FontRecord.usage _ r).mp hr2
    rw [List.mem_filter] at hr3
    obtain ⟨hmem, husage⟩ := hr3
    rcases List.mem_map.mp hmem with ⟨p, hpm, hpr⟩
    subst hpr
    refine ⟨by simpa using husage, ?_⟩
    have hpv : p.2 = lookupCount scan.1 p.1 :=
      mem_lookupCount scan.1 p (hNd (by simp)) hpm
    have hcount := hCnt p.1
    have hzero : lookupCount [] p.1 = 0 := rfl
    rw [hzero, Nat.zero_add] at hcount
    show jsRound ((p.2 : ℚ) / (scan.2 : ℚ) * 100) = jsRound
      ((((elements.filter (fun e =>
          fontQualifies e && decide (resolvedFont e = p.1))).length : ℚ) /
        ((elements.filter fontQualifies).length : ℚ)) * 100)
    rw [hpv, hcount, hTot, Nat.zero_add]

/-- C7 witness: instance of the usage theorem for a single element page in
the font `Arial`. -/
theorem analyzeFontFamilies_usage_spec_witness :
    (TypographyAnalyzer.analyzeFontFamilies [⟨"hello", "Arial"⟩]).length ≤ 10 ∧
      (1 ≤ (TypographyAnalyzer.FontRecord.mk "Arial" 100).usage ∧
        (TypographyAnalyzer.FontRecord.mk "Arial" 100).usage = jsRound
          (((([(⟨"hello", "Arial"⟩ : TypographyAnalyzer.TElem)].filter (fun e =>
              fontQualifies e &&
                decide (resolvedFont e = (TypographyAnalyzer.FontRecord.mk "Arial" 100).name))).length : ℚ) /
            (([(⟨"hello", "Arial"⟩ : TypographyAnalyzer.TElem)].filter fontQualifies).length : ℚ)) *
              100)) := by
  refine ⟨(analyzeFontFamilies_usage_spec [⟨"hello", "Arial"⟩]).1, ?_⟩
  apply (analyzeFontFamilies_usage_spec [⟨"hello", "Arial"⟩]).2.2
  show TypographyAnalyzer.FontRecord.mk "Arial" 100 ∈
    TypographyAnalyzer.analyzeFontFamilies [⟨"hello", "Arial"⟩]
  have h100 : jsRound (((1 : ℕ) : ℚ) / ((1 : ℕ) : ℚ) * 100) = 100 := by
    unfold jsRound
    rw [Int.floor_eq_iff]
    constructor <;> norm_num
  have : TypographyAnalyzer.analyzeFontFamilies [⟨"hello", "Arial"⟩] =
      [TypographyAnalyzer.FontRecord.mk "Arial" 100] := by
    unfold TypographyAnalyzer.analyzeFontFamilies
    simp only [List.foldl, fontScanStep_eq]
    rw [if_pos (by decide)]
    simp only [List.foldl_nil, List.map_cons, List.map_nil]
    have hbump : TypographyAnalyzer.bumpCount [] (resolvedFont ⟨"hello", "Arial"⟩) =
        [("Arial", 1)] := by decide
    rw [hbump]
    simp only [List.map_cons, List.map_nil, h100]
    decide
  rw [this]
  exact List.mem_singleton.mpr rfl

end ClaimC7

section ClaimC2

set_option maxRecDepth 8000 in
/-- A byte rendered in hex and padded is two uppercase hex characters. -/
theorem natByteHex : ∀ n : ℕ, n < 256 →
    ((ColorAnalyzer.pad2 (Nat.toDigits 16 n)).map jsToUpper).length = 2 ∧
    (((ColorAnalyzer.pad2 (Nat.toDigits 16 n)).map jsToUpper).all
      (fun c => decide (c ∈ upperHexDigits))) = true := by decide

/-- Uppercasing a hex digit yields an uppercase hex digit. -/
theorem jsToUpper_hexmem : ∀ c ∈ hexDigitChars, jsToUpper c ∈ upperHexDigits := by decide

/-- A hash head followed by three two-character uppercase hex chunks passes
the output shape test. -/
theorem isUpperHex6_of_three (m1 m2 m3 : List Char)
    (h1 : m1.length = 2) (h2 : m2.length = 2) (h3 : m3.length = 2)
    (a1 : m1.all (fun c => decide (c ∈ upperHexDigits)) = true)
    (a2 : m2.all (fun c => decide (c ∈ upperHexDigits)) = true)
    (a3 : m3.all (fun c => decide (c ∈ upperHexDigits)) = true) :
    isUpperHex6 ('#' :: (m1 ++ m2 ++ m3)) = true := by
  unfold isUpperHex6
  simp [List.all_append, List.length_append, h1, h2, h3, a1, a2, a3]

/-- The rgb branch output is a hash and six uppercase hex digits when all
channels fit a byte. -/
theorem isUpperHex6_rgbOut (r g b : ℕ) (hr : r < 256) (hg : g < 256) (hb : b < 256) :
    isUpperHex6 (ColorAnalyzer.rgbOut r g b) = true := by
  obtain ⟨lr, ar⟩ := natByteHex r hr
  obtain ⟨lg, ag⟩ := natByteHex g hg
  obtain ⟨lb, ab⟩ := natByteHex b hb
  unfold ColorAnalyzer.rgbOut
  rw [List.map_append, List.map_append]
  exact isUpperHex6_of_three _ _ _ lr lg lb ar ag ab

/-- Bounds of the hue helper on its wrapped argument. -/
theorem hue2rgb_mem (p q t : ℚ) (hp : 0 ≤ p) (hpq : p ≤ q) (hq : q ≤ 1)
    (ht : -(1/3) ≤ t) : 0 ≤ ColorAnalyzer.hue2rgb p q t ∧ ColorAnalyzer.hue2rgb p q t ≤ 1 := by
  unfold ColorAnalyzer.hue2rgb
  dsimp only
  split_ifs <;> constructor <;> nlinarith

/-- For a nonnegative hue and in-range saturation and lightness every
converted channel lies in the byte range. -/
theorem hslToRgb_bounds (h s l : ℚ) (hh : 0 ≤ h) (hs0 : 0 ≤ s) (hs1 : s ≤ 1)
    (hl0 : 0 ≤ l) (hl1 : l ≤ 1) :
    (0 ≤ (ColorAnalyzer.hslToRgb h s l).1 ∧ (ColorAnalyzer.hslToRgb h s l).1 ≤ 255) ∧
    (0 ≤ (ColorAnalyzer.hslToRgb h s l).2.1 ∧ (ColorAnalyzer.hslToRgb h s l).2.1 ≤ 255) ∧
    (0 ≤ (ColorAnalyzer.hslToRgb h s l).2.2 ∧ (ColorAnalyzer.hslToRgb h s l).2.2 ≤ 255) := by
  by_cases hs : s = 0
  · unfold ColorAnalyzer.hslToRgb
    rw [if_pos hs]
    refine ⟨⟨?_, ?_⟩, ⟨?_, ?_⟩, ⟨?_, ?_⟩⟩ <;> dsimp only <;> nlinarith
  · unfold ColorAnalyzer.hslToRgb
    rw [if_neg hs]
    dsimp only
    set Q := (if l < 1/2 then l * (1 + s) else l + s - l * s) with hQ
    have hb : 0 ≤ 2 * l - Q ∧ 2 * l - Q ≤ Q ∧ Q ≤ 1 := by
      rw [hQ]
      split_ifs with hl <;> refine ⟨?_, ?_, ?_⟩ <;> nlinarith
    have c1 := hue2rgb_mem (2 * l - Q) Q (h + 1/3) hb.1 hb.2.1 hb.2.2 (by linarith)
    have c2 := hue2rgb_mem (2 * l - Q) Q h hb.1 hb.2.1 hb.2.2 (by linarith)
    have c3 := hue2rgb_mem (2 * l - Q) Q (h - 1/3) hb.1 hb.2.1 hb.2.2 (by linarith)
    refine ⟨⟨?_, ?_⟩, ⟨?_, ?_⟩, ⟨?_, ?_⟩⟩ <;>
      nlinarith [c1.1, c1.2, c2.1, c2.2, c3.1, c3.2]

/-- Rounding keeps a byte-range rational in the byte range. -/
theorem jsRound_byte (x : ℚ) (h0 : 0 ≤ x) (h255 : x ≤ 255) :
    0 ≤ jsRound x ∧ jsRound x ≤ 255 := by
  unfold jsRound
  constructor
  · apply Int.le_floor.mpr
    push_cast
    linarith
  · have hlt : ⌊x + 1/2⌋ < 256 := by
      apply Int.floor_lt.mpr
      push_cast
      linarith
    omega

/-- A nonnegative integer renders through the nonnegative branch. -/
theorem intByteHexGood (i : ℤ) (h0 : 0 ≤ i) (h255 : i ≤ 255) :
    ColorAnalyzer.intToHexChars i = Nat.toDigits 16 i.toNat ∧ i.toNat < 256 := by
  constructor
  · unfold ColorAnalyzer.intToHexChars
    rw [if_neg (by omega)]
  · omega

/-- The hsl branch output is a hash and six uppercase hex digits for a
nonnegative hue and in-range saturation and lightness. -/
theorem isUpperHex6_hslOut (h s l : ℚ) (hh : 0 ≤ h) (hs0 : 0 ≤ s) (hs1 : s ≤ 1)
    (hl0 : 0 ≤ l) (hl1 : l ≤ 1) : isUpperHex6 (ColorAnalyzer.hslOut h s l) = true := by
  obtain ⟨⟨r0, r255⟩, ⟨g0, g255⟩, ⟨b0, b255⟩⟩ := hslToRgb_bounds h s l hh hs0 hs1 hl0 hl1
  obtain ⟨jr0, jr255⟩ := jsRound_byte _ r0 r255
  obtain ⟨jg0, jg255⟩ := jsRound_byte _ g0 g255
  obtain ⟨jb0, jb255⟩ := jsRound_byte _ b0 b255
  obtain ⟨er, nr⟩ := intByteHexGood _ jr0 jr255
  obtain ⟨eg, ng⟩ := intByteHexGood _ jg0 jg255
  obtain ⟨eb, nb⟩ := intByteHexGood _ jb0 jb255
  unfold ColorAnalyzer.hslOut
  dsimp only
  rw [er, eg, eb, List.map_append, List.map_append]
  obtain ⟨lr, ar⟩ := natByteHex _ nr
  obtain ⟨lg, ag⟩ := natByteHex _ ng
  obtain ⟨lb, ab⟩ := natByteHex _ nb
  exact isUpperHex6_of_three _ _ _ lr lg lb ar ag ab

/-- The rgb branch of `toHexA` in closed form. -/
theorem toHexA_rgb_branch (canvas : List Char → Option (List Char))
    (color c1 c2 c3 : List Char) (hpre : (['r', 'g', 'b'].isPrefixOf color) = true)
    (hm : searchA matchRgbAt color = some (c1, c2, c3)) :
    ColorAnalyzer.toHexA canvas color =
      some (ColorAnalyzer.rgbOut (digitsToNat c1) (digitsToNat c2) (digitsToNat c3)) := by
  have hne : ¬(color = []) := by
    intro h
    subst h
    simp [List.isPrefixOf] at hpre
  simp [ColorAnalyzer.toHexA, hne, hpre, hm]

/-- The hsl branch of `toHexA` in closed form. -/
theorem toHexA_hsl_branch (canvas : List Char → Option (List Char))
    (color c1 c2 c3 : List Char) (dh ds dl : DecNum)
    (hpre : (['h', 's', 'l'].isPrefixOf color) = true)
    (hm : searchA matchHslAt color = some (c1, c2, c3))
    (hdh : parseFloatDec c1 = some dh) (hds : parseFloatDec c2 = some ds)
    (hdl : parseFloatDec c3 = some dl) :
    ColorAnalyzer.toHexA canvas color =
      some (ColorAnalyzer.hslOut (dh.val / 360) (ds.val / 100) (dl.val / 100)) := by
  have hne : ¬(color = []) := by
    intro h
    subst h
    simp [List.isPrefixOf] at hpre
  have hrgb : (['r', 'g', 'b'].isPrefixOf color) = false := by
    cases color with
    | nil => simp [List.isPrefixOf] at hpre
    | cons c cs =>
      simp only [List.isPrefixOf, Bool.and_eq_true, beq_iff_eq] at hpre
      obtain ⟨hc, _⟩ := hpre
      subst hc
      rfl
  simp [ColorAnalyzer.toHexA, hne, hrgb, hpre, hm, hdh, hds, hdl]

/-- The hash branch of `toHexA` in closed form. -/
theorem toHexA_hash_branch (canvas : List Char → Option (List Char)) (rest : List Char) :
    ColorAnalyzer.toHexA canvas ('#' :: rest) = some (ColorAnalyzer.hashOut ('#' :: rest)) := by
  have hne : ¬('#' :: rest = ([] : List Char)) := by simp
  have h1 : (['r', 'g', 'b'].isPrefixOf ('#' :: rest)) = false := rfl
  have h2 : (['h', 's', 'l'].isPrefixOf ('#' :: rest)) = false := rfl
  have h3 : (['#'].isPrefixOf ('#' :: rest)) = true := by simp [List.isPrefixOf]
  simp [ColorAnalyzer.toHexA, hne, h1, h2, h3]

/-- The hash branch on a three-digit form in closed form. -/
theorem hashOut_three (a b c : Char) :
    ColorAnalyzer.hashOut ['#', a, b, c] =
      ['#', jsToUpper a, jsToUpper a, jsToUpper b, jsToUpper b, jsToUpper c, jsToUpper c] := rfl

/-- The hash branch on a six-digit form in closed form. -/
theorem hashOut_six (a b c d e f : Char) :
    ColorAnalyzer.hashOut ['#', a, b, c, d, e, f] =
      ['#', jsToUpper a, jsToUpper b, jsToUpper c, jsToUpper d, jsToUpper e, jsToUpper f] := rfl

/-- The hash branch on an eight-digit form drops the alpha pair. -/
theorem hashOut_eight (a b c d e f g h : Char) :
    ColorAnalyzer.hashOut ['#', a, b, c, d, e, f, g, h] =
      ['#', jsToUpper a, jsToUpper b, jsToUpper c, jsToUpper d, jsToUpper e, jsToUpper f] := rfl

/-- The parsed decimal value is nonnegative. -/
theorem DecNum.val_nonneg (d : DecNum) : 0 ≤ d.val := by
  unfold DecNum.val
  positivity

/-- A three-digit hex form expands to a hash and six uppercase hex digits. -/
theorem isUpperHex6_hash3 (a b c : Char) (ha : a ∈ hexDigitChars) (hb : b ∈ hexDigitChars)
    (hc : c ∈ hexDigitChars) :
    isUpperHex6 (ColorAnalyzer.hashOut ['#', a, b, c]) = true := by
  rw [hashOut_three]
  have ha2 := jsToUpper_hexmem a ha
  have hb2 := jsToUpper_hexmem b hb
  have hc2 := jsToUpper_hexmem c hc
  unfold isUpperHex6
  simp [ha2, hb2, hc2]

/-- A six-digit hex form uppercases to a hash and six uppercase hex digits. -/
theorem isUpperHex6_hash6 (a b c d e f : Char) (ha : a ∈ hexDigitChars)
    (hb : b ∈ hexDigitChars) (hc : c ∈ hexDigitChars) (hd : d ∈ hexDigitChars)
    (he : e ∈ hexDigitChars) (hf : f ∈ hexDigitChars) :
    isUpperHex6 (ColorAnalyzer.hashOut ['#', a, b, c, d, e, f]) = true := by
  rw [hashOut_six]
  have ha2 := jsToUpper_hexmem a ha
  have hb2 := jsToUpper_hexmem b hb
  have hc2 := jsToUpper_hexmem c hc
  have hd2 := jsToUpper_hexmem d hd
  have he2 := jsToUpper_hexmem e he
  have hf2 := jsToUpper_hexmem f hf
  unfold isUpperHex6
  simp [ha2, hb2, hc2, hd2, he2, hf2]

/-- An eight-digit hex form drops the alpha pair and uppercases to a hash
and six uppercase hex digits. -/
theorem isUpperHex6_hash8 (a b c d e f g h : Char) (ha : a ∈ hexDigitChars)
    (hb : b ∈ hexDigitChars) (hc : c ∈ hexDigitChars) (hd : d ∈ hexDigitChars)
    (he : e ∈ hexDigitChars) (hf : f ∈ hexDigitChars) :
    isUpperHex6 (ColorAnalyzer.hashOut ['#', a, b, c, d, e, f, g, h]) = true := by
  rw [hashOut_eight]
  have ha2 := jsToUpper_hexmem a ha
  have hb2 := jsToUpper_hexmem b hb
  have hc2 := jsToUpper_hexmem c hc
  have hd2 := jsToUpper_hexmem d hd
  have he2 := jsToUpper_hexmem e he
  have hf2 := jsToUpper_hexmem f hf
  unfold isUpperHex6
  simp [ha2, hb2, hc2, hd2, he2, hf2]

/-- Evaluation of the hsl output at pure red. -/
theorem hslOut_red : ColorAnalyzer.hslOut 0 1 (1/2) = "#FF0000".data := by
  have h1 : ColorAnalyzer.hslToRgb 0 1 (1/2) = (255, 0, 0) := by
    unfold ColorAnalyzer.hslToRgb ColorAnalyzer.hue2rgb
    norm_num
  unfold ColorAnalyzer.hslOut
  dsimp only
  rw [h1]
  have hr : jsRound ((255 : ℚ)) = 255 := by
    unfold jsRound
    rw [Int.floor_eq_iff]
    constructor <;> norm_num
  have hz : jsRound ((0 : ℚ)) = 0 := by
    unfold jsRound
    rw [Int.floor_eq_iff]
    constructor <;> norm_num
  simp only [hr, hz]
  decide

/-- C2 counterexample: a 4-digit hex input is passed through unchanged (not
normalised to six digits, alpha not dropped), and an rgb component above 255
yields a seven-digit output; both contradict the claim that every rgb()/hsl()
or 3/4/6/8-digit hex input produces an uppercase six-digit `#RRGGBB`. -/
theorem toHex_four_digit_counterexample :
    ColorAnalyzer.toHex "#1234" = some "#1234" ∧
      outIsUpperHex6 (ColorAnalyzer.toHexA (fun _ => none) "#1234".data) = false ∧
      ColorAnalyzer.toHex "rgb(300, 0, 0)" = some "#12C0000" ∧
      outIsUpperHex6 (ColorAnalyzer.toHexA (fun _ => none) "rgb(300, 0, 0)".data) = false := by
  refine ⟨by decide, by decide, by decide, by decide⟩

/-- C2 (amended): `toHexA` produces an uppercase six-digit `#RRGGBB` (alpha
dropped) for every rgb()/rgba() string whose parsed components are at most
255, for every hsl()/hsla() string whose saturation and lightness captures
are at most 100, and for every 3-, 6- or 8-digit hash-hex string, whatever
the canvas oracle; and the two spec examples evaluate to `#FF0000`.  (The
4-digit form and out-of-range components are excluded — see the
counterexample.) -/
theorem toHex_normalizes_upper_hex6 :
    (∀ (canvas : List Char → Option (List Char)) (color c1 c2 c3 : List Char),
      (['r', 'g', 'b'].isPrefixOf color) = true →
      searchA matchRgbAt color = some (c1, c2, c3) →
      digitsToNat c1 ≤ 255 → digitsToNat c2 ≤ 255 → digitsToNat c3 ≤ 255 →
      outIsUpperHex6 (ColorAnalyzer.toHexA canvas color) = true) ∧
    (∀ (canvas : List Char → Option (List Char)) (color c1 c2 c3 : List Char)
      (dh ds dl : DecNum),
      (['h', 's', 'l'].isPrefixOf color) = true →
      searchA matchHslAt color = some (c1, c2, c3) →
      parseFloatDec c1 = some dh → parseFloatDec c2 = some ds →
      parseFloatDec c3 = some dl → ds.val ≤ 100 → dl.val ≤ 100 →
      outIsUpperHex6 (ColorAnalyzer.toHexA canvas color) = true) ∧
    (∀ (canvas : List Char → Option (List Char)) (a b c : Char),
      a ∈ hexDigitChars → b ∈ hexDigitChars → c ∈ hexDigitChars →
      outIsUpperHex6 (ColorAnalyzer.toHexA canvas ['#', a, b, c]) = true) ∧
    (∀ (canvas : List Char → Option (List Char)) (a b c d e f : Char),
      a ∈ hexDigitChars → b ∈ hexDigitChars → c ∈ hexDigitChars → d ∈ hexDigitChars →
      e ∈ hexDigitChars → f ∈ hexDigitChars →
      outIsUpperHex6 (ColorAnalyzer.toHexA canvas ['#', a, b, c, d, e, f]) = true) ∧
    (∀ (canvas : List Char → Option (List Char)) (a b c d e f g h : Char),
      a ∈ hexDigitChars → b ∈ hexDigitChars → c ∈ hexDigitChars → d ∈ hexDigitChars →
      e ∈ hexDigitChars → f ∈ hexDigitChars →
      outIsUpperHex6 (ColorAnalyzer.toHexA canvas ['#', a, b, c, d, e, f, g, h]) = true) ∧
    ColorAnalyzer.toHex "rgb(255, 0, 0)" = some "#FF0000" ∧
    ColorAnalyzer.toHex "hsl(0, 100%, 50%)" = some "#FF0000" := by
  refine ⟨?_, ?_, ?_, ?_, ?_, by decide, ?_⟩
  · intro canvas color c1 c2 c3 hpre hm h1 h2 h3
    rw [toHexA_rgb_branch canvas color c1 c2 c3 hpre hm]
    exact isUpperHex6_rgbOut _ _ _ (by omega) (by omega) (by omega)
  · intro canvas color c1 c2 c3 dh ds dl hpre hm hdh hds hdl hs hl
    rw [toHexA_hsl_branch canvas color c1 c2 c3 dh ds dl hpre hm hdh hds hdl]
    show isUpperHex6 (ColorAnalyzer.hslOut (dh.val / 360) (ds.val / 100) (dl.val / 100)) = true
    apply isUpperHex6_hslOut
    · exact div_nonneg (DecNum.val_nonneg dh) (by norm_num)
    · exact div_nonneg (DecNum.val_nonneg ds) (by norm_num)
    · rw [div_le_one (by norm_num)]
      exact hs
    · exact div_nonneg (DecNum.val_nonneg dl) (by norm_num)
    · rw [div_le_one (by norm_num)]
      exact hl
  · intro canvas a b c ha hb hc
    rw [toHexA_hash_branch canvas [a, b, c]]
    exact isUpperHex6_hash3 a b c ha hb hc
  · intro canvas a b c d e f ha hb hc hd he hf
    rw [toHexA_hash_branch canvas [a, b, c, d, e, f]]
    exact isUpperHex6_hash6 a b c d e f ha hb hc hd he hf
  · intro canvas a b c d e f g h ha hb hc hd he hf
    rw [toHexA_hash_branch canvas [a, b, c, d, e, f, g, h]]
    exact isUpperHex6_hash8 a b c d e f g h ha hb hc hd he hf
  · have hm : searchA matchHslAt ("hsl(0, 100%, 50%)".data) =
        some ("0".data, "100".data, "50".data) := by decide
    have hb := toHexA_hsl_branch (fun _ => none) ("hsl(0, 100%, 50%)".data) "0".data
      "100".data "50".data ⟨0, 0, 0⟩ ⟨100, 0, 0⟩ ⟨50, 0, 0⟩ (by decide) hm (by decide)
      (by decide) (by decide)
    unfold ColorAnalyzer.toHex
    rw [hb]
    have hv0 : (⟨0, 0, 0⟩ : DecNum).val / 360 = 0 := by norm_num [DecNum.val]
    have hv1 : (⟨100, 0, 0⟩ : DecNum).val / 100 = 1 := by norm_num [DecNum.val]
    have hv05 : (⟨50, 0, 0⟩ : DecNum).val / 100 = 1/2 := by norm_num [DecNum.val]
    rw [hv0, hv1, hv05, hslOut_red]
    rfl

/-- C2 witness: instance of the rgb part at `rgb(10, 20, 30)`. -/
theorem toHex_normalizes_upper_hex6_witness :
    outIsUpperHex6 (ColorAnalyzer.toHexA (fun _ => none) ("rgb(10, 20, 30)".data)) = true :=
  toHex_normalizes_upper_hex6.1 (fun _ => none) ("rgb(10, 20, 30)".data) "10".data "20".data
    "30".data (by decide) (by decide) (by decide) (by decide) (by decide)

end ClaimC2
